import Mathlib

/-!
Verification development for `worktree.py` (git worktree creation with sync of
gitignored files).  The script is shallowly embedded: strings are lists of
characters, filesystem paths are lists of path components relative to the
repository root, the directory tree walked by `os.walk` is a finite tree, and
every outcome of an external effect (git commands, `stat` calls, copies,
exceptions escaping a phase) is an explicit parameter of the model.
-/

/-- A Python string, as a list of characters. -/
abbrev Str := List Char

/-- A filesystem path relative to the repository root, as its list of
components (`Path` segments).  The basename is the last component. -/
abbrev FPath := List Str

/-- Default whitespace stripped by Python `str.strip()` (ASCII part:
space, tab, newline, carriage return, vertical tab, form feed). -/
def pyIsSpace (c : Char) : Bool :=
  c == ' ' || c == '\t' || c == '\n' || c == '\r' || c == Char.ofNat 11 || c == Char.ofNat 12

/-- Python `line.strip()`. -/
def pyStrip (s : Str) : Str :=
  ((s.dropWhile pyIsSpace).reverse.dropWhile pyIsSpace).reverse

/-- Python `line.rstrip("/")`: removes ALL trailing `'/'` characters
(worktree.py line 271). -/
def pyRstripSlash (s : Str) : Str :=
  (s.reverse.dropWhile (fun c => c == '/')).reverse

/-- Python `c in line` for a single character `c` (substring test of a
one-character string). -/
def hasChar (c : Char) (s : Str) : Bool :=
  s.any (fun x => x == c)

/-- Python `"**" in line`: two adjacent asterisks occur somewhere. -/
def hasDoubleStar : Str → Bool
  | '*' :: '*' :: _ => true
  | _ :: rest => hasDoubleStar rest
  | [] => false

/-!
### `fnmatch` — shell-style glob matching (Python stdlib, POSIX case handling)

`fnmatch.fnmatch(name, pattern)` compiles the pattern (`*`, `?`, `[...]` with
`!` negation and `a-b` ranges; an unclosed `[` is a literal) and matches the
whole name.  We mirror that: compile to a token list, then match.
-/

/-- One compiled glob token. -/
inductive GlobTok where
  | lit (c : Char)
  | star
  | anyChar
  | charClass (neg : Bool) (body : Str)
deriving DecidableEq

/-- Scan forward for the closing `]` of a character class, returning the raw
class body and the remaining pattern.  `none` when the class is unclosed. -/
def splitClass : Str → Option (Str × Str)
  | [] => none
  | c :: cs =>
    if c == ']' then some ([], cs)
    else (splitClass cs).map (fun br => (c :: br.1, br.2))

/-- Class body after the optional `!`: a `]` in first position is a literal
member of the class (as in CPython's translate). -/
def parseClassCore (cs : Str) : Option (Str × Str) :=
  match cs with
  | ']' :: r => (splitClass r).map (fun br => (']' :: br.1, br.2))
  | _ => splitClass cs

/-- Parse the inside of a `[...]` class: negation flag, body, rest of the
pattern after the closing `]`. -/
def parseClass (cs : Str) : Option (Bool × Str × Str) :=
  match cs with
  | '!' :: cs1 => (parseClassCore cs1).map (fun br => (true, br.1, br.2))
  | _ => (parseClassCore cs).map (fun br => (false, br.1, br.2))

/-- Does character `c` match the raw body of a character class
(`a-b` ranges by code point, a trailing `-` is a literal)? -/
def classBodyMatch (c : Char) : Str → Bool
  | [] => false
  | a :: '-' :: b :: rest =>
    (decide (a.toNat ≤ c.toNat) && decide (c.toNat ≤ b.toNat)) || classBodyMatch c rest
  | a :: rest => a == c || classBodyMatch c rest

/-- Pattern compiler.  The fuel argument only bounds the recursion (each step
consumes at least one pattern character, so `fuel = length` never runs out);
it makes the recursion structural. -/
def compileGlobF : Nat → Str → List GlobTok
  | _, [] => []
  | fuel + 1, '*' :: ps => .star :: compileGlobF fuel ps
  | fuel + 1, '?' :: ps => .anyChar :: compileGlobF fuel ps
  | fuel + 1, '[' :: ps =>
    (match parseClass ps with
     | some (neg, body, rest) => .charClass neg body :: compileGlobF fuel rest
     | none => .lit '[' :: compileGlobF fuel ps)
  | fuel + 1, c :: ps => .lit c :: compileGlobF fuel ps
  | 0, _ :: _ => []

/-- Compile a glob pattern to tokens. -/
def compileGlob (p : Str) : List GlobTok :=
  compileGlobF p.length p

/-- Match a compiled pattern against a whole name. -/
def tokMatch : List GlobTok → Str → Bool
  | [], s => s.isEmpty
  | .lit c :: ts, s => match s with | c' :: s' => c == c' && tokMatch ts s' | [] => false
  | .anyChar :: ts, s => match s with | _ :: s' => tokMatch ts s' | [] => false
  | .star :: ts, s => s.tails.any (fun t => tokMatch ts t)
  | .charClass neg body :: ts, s =>
    match s with
    | c' :: s' => (neg != classBodyMatch c' body) && tokMatch ts s'
    | [] => false

/-- Python `fnmatch.fnmatch(name, pattern)` (POSIX: no case folding). -/
def fnmatch (nm pat : Str) : Bool :=
  tokMatch (compileGlob pat) nm

/-!
### Constants of worktree.py
-/

/-- `MAX_FILE_SIZE_BYTES = 10 * 1024 * 1024` (line 21). -/
def MAX_FILE_SIZE_BYTES : Nat := 10 * 1024 * 1024

/-- `BLACKLIST` (lines 76-97): directory basenames / glob patterns that are
never descended into.  A Python set; only membership matters. -/
def BLACKLIST : List Str :=
  ["node_modules".data, ".venv".data, "venv".data, "__pycache__".data, ".cache".data,
   "dist".data, "build".data, ".git".data, ".tox".data, ".pytest_cache".data,
   ".mypy_cache".data, "coverage".data, ".next".data, ".nuxt".data, "vendor".data,
   ".terraform".data, "target".data, ".gradle".data, ".m2".data, "*.egg-info".data]

/-- `COMMON_CONFIGS` (lines 100-112), with each relative path pre-split into
its components (the script builds `source_dir / config`, which splits on the
path separator). -/
def COMMON_CONFIGS : List FPath :=
  [[".env".data], [".env.local".data], [".env.development".data],
   [".env.development.local".data], [".env.test".data], [".env.test.local".data],
   [".env.production.local".data],
   [".claude".data, "settings.local.json".data],
   ["config".data, "local.yaml".data], ["config".data, "local.yml".data],
   ["config".data, "local.json".data]]

/-- `is_blacklisted(path_part)` (lines 201-218): exact membership in
`BLACKLIST`, or a glob match against the blacklist entries that contain `*`. -/
def is_blacklisted (pathPart : Str) : Bool :=
  BLACKLIST.any (fun b => b == pathPart) ||
  BLACKLIST.any (fun pat => hasChar '*' pat && fnmatch pathPart pat)

/-!
### Parsing the ignore file (worktree.py lines 262-275)

Per physical line: `strip()`; skip if empty, `#`-prefixed or `!`-prefixed;
`rstrip("/")`; skip if the result still contains `/`, `\` or `**`;
otherwise append the result to the pattern list.
-/

/-- Processing of one `.gitignore` line, exactly as in the loop body of
`find_git_ignored_files` (lines 265-275). -/
def processLine (line : Str) : Option Str :=
  let l := pyStrip line
  if l.isEmpty || l.head? == some '#' || l.head? == some '!' then none
  else
    let l2 := pyRstripSlash l
    if hasChar '/' l2 || hasChar '\\' l2 || hasDoubleStar l2 then none
    else some l2

/-- The pattern list accumulated by the read loop (`patterns.append(line)`). -/
def parse_gitignore (lines : List Str) : List Str :=
  lines.foldl
    (fun acc line => match processLine line with | some p => acc ++ [p] | none => acc) []

/-- One line as described by the SPEC'S WORDS for claim C3: after trimming and
the comment/negation/empty skips, strip ONE trailing path separator, then skip
the line if it still contains a path separator or a double wildcard. -/
def processLineSpec (line : Str) : Option Str :=
  let l := pyStrip line
  if l.isEmpty || l.head? == some '#' || l.head? == some '!' then none
  else
    let l2 := if l.getLast? == some '/' then l.dropLast else l
    if hasChar '/' l2 || hasChar '\\' l2 || hasDoubleStar l2 then none
    else some l2

/-- The pattern set per the spec's one-separator-stripping description (C3). -/
def parse_gitignore_spec (lines : List Str) : List Str :=
  lines.filterMap processLineSpec

/-- One line as described by the AMENDED claim C3: identical to the spec's
description except that ALL trailing forward slashes are stripped (and only
forward slashes). -/
def processLineAmended (line : Str) : Option Str :=
  let l := pyStrip line
  if l.isEmpty || l.head? == some '#' || l.head? == some '!' then none
  else
    let l2 := (l.reverse.dropWhile (fun c => c == '/')).reverse
    if hasChar '/' l2 || hasChar '\\' l2 || hasDoubleStar l2 then none
    else some l2

/-- The pattern set per the amended description of claim C3. -/
def parse_gitignore_amended (lines : List Str) : List Str :=
  lines.filterMap processLineAmended

/-!
### The filesystem model

`os.walk(source_dir)` is modelled on a finite directory tree.  A directory
node carries its regular files — each with the result of `stat()`:
`some size`, or `none` when the `stat` call raises `OSError` (such a file is
listed by the directory scan, but `Path.exists()` is false for it) — and its
named subdirectories.
-/

mutual
inductive FSTree where
  | node (files : List (Str × Option Nat)) (dirs : Forest)
inductive Forest where
  | nil
  | cons (name : Str) (t : FSTree) (rest : Forest)
end

deriving instance DecidableEq for FSTree

/-- The files of a directory node. -/
def FSTree.filesOf : FSTree → List (Str × Option Nat)
  | .node fs _ => fs

/-- The subdirectories of a directory node. -/
def FSTree.dirsOf : FSTree → Forest
  | .node _ ds => ds

/-- A forest as an association list of named subtrees. -/
def forestList : Forest → List (Str × FSTree)
  | .nil => []
  | .cons n t r => (n, t) :: forestList r

mutual
/-- All `stat` outcomes of file entries reachable at relative path `p`
(a list, so that a tree with duplicate names needs no extra hypotheses;
on a well-formed tree it has at most one element). -/
def fileStatsTree : FSTree → FPath → List (Option Nat)
  | _, [] => []
  | .node fs _, [n] => (fs.filter (fun f => f.1 = n)).map Prod.snd
  | .node _ ds, c :: p => statsForest ds c p
/-- `fileStatsTree` over the named subtrees of a forest. -/
def statsForest : Forest → Str → FPath → List (Option Nat)
  | .nil, _, _ => []
  | .cons name t rest, c, p =>
    (if name = c then fileStatsTree t p else []) ++ statsForest rest c p
end

mutual
/-- All directory nodes reachable at relative path `q`. -/
def subtreesAt : FSTree → FPath → List FSTree
  | t, [] => [t]
  | .node _ ds, c :: p => subtreesForest ds c p
/-- `subtreesAt` over the named subtrees of a forest. -/
def subtreesForest : Forest → Str → FPath → List FSTree
  | .nil, _, _ => []
  | .cons name t rest, c, p =>
    (if name = c then subtreesAt t p else []) ++ subtreesForest rest c p
end

/-- Python `config_path.exists() and config_path.is_file()`: a regular file
is present at `p` and its `stat` succeeds (`Path.exists()` swallows `OSError`
and reports false, so a stat-failing entry does not count). -/
def isFileAt (t : FSTree) (p : FPath) : Bool :=
  (fileStatsTree t p).any (fun st => st.isSome)

/-!
### The directory scan (`find_git_ignored_files`, lines 239-320)
-/

/-- The mutable state of the scan: `files_to_copy`, the large-file warnings
printed at lines 310-313 (path and size), `seen_files`, and `skipped_dirs`.
`seen_files` and `skipped_dirs` are Python sets; they are modelled as lists
and only membership is meaningful. -/
structure ScanState where
  cands : List FPath
  warns : List (FPath × Nat)
  seen : List FPath
  skipped : List Str
deriving DecidableEq

/-- The empty initial scan state. -/
def initScan : ScanState := ⟨[], [], [], []⟩

/-- The body of `for filename in files` (lines 295-318): find the first
pattern matching the basename (the loop breaks after the first match, so only
`patterns.any` is observable); on a match, skip if already seen, else record
as seen and `stat` the file — `OSError` is swallowed (`none`), an oversized
file is warned about and skipped, otherwise the file joins `files_to_copy`. -/
def processFile (pats : List Str) (pre : FPath) (st : ScanState)
    (fname : Str) (stt : Option Nat) : ScanState :=
  if pats.any (fun pat => fnmatch fname pat) then
    let p := pre ++ [fname]
    if p ∈ st.seen then st
    else
      let st1 := { st with seen := st.seen ++ [p] }
      match stt with
      | none => st1
      | some sz =>
        if sz > MAX_FILE_SIZE_BYTES then { st1 with warns := st1.warns ++ [(p, sz)] }
        else { st1 with cands := st1.cands ++ [p] }
  else st

mutual
/-- `os.walk` from one directory (lines 281-318): process the files of the
current directory, then handle each child directory.  `pre` is the path of
the current directory relative to the source root. -/
def walkTree (pats : List Str) (pre : FPath) (st : ScanState) : FSTree → ScanState
  | .node files dirs =>
    walkDirs pats pre (files.foldl (fun s f => processFile pats pre s f.1 f.2) st) dirs
/-- Child-directory handling (lines 285-292): a blacklisted basename is added
to `skipped_dirs` and removed from `dirs` (never descended into); the walk
continues into the others.  `skipped_dirs` is a set, so recording a skip when
the child is reached (rather than batching all removals first) is
membership-equivalent to the source. -/
def walkDirs (pats : List Str) (pre : FPath) (st : ScanState) : Forest → ScanState
  | .nil => st
  | .cons name t rest =>
    if is_blacklisted name then
      walkDirs pats pre { st with skipped := st.skipped ++ [name] } rest
    else
      walkDirs pats pre (walkTree pats (pre ++ [name]) st t) rest
end

/-- The ignore file at the repository root: missing, present but unreadable
(the `open`/read loop raises, caught at lines 276-278), or its lines. -/
inductive GitignoreFile where
  | absent
  | unreadable
  | content (lines : List Str)
deriving DecidableEq

/-- `gitignore_path.exists()`. -/
def GitignoreFile.existsOnDisk : GitignoreFile → Bool
  | .absent => false
  | .unreadable => true
  | .content _ => true

/-- `find_git_ignored_files(source_dir, gitignore_path)` (lines 239-320):
an absent ignore file returns the empty result before any walk (line 256);
a read failure warns and returns the empty result (lines 276-278); otherwise
the parsed patterns drive the walk from the root. -/
def find_git_ignored_files (g : GitignoreFile) (t : FSTree) : ScanState :=
  match g with
  | .absent => initScan
  | .unreadable => initScan
  | .content lines => walkTree (parse_gitignore lines) [] initScan t

/-- The loop of `find_common_config_files` over an arbitrary config list:
append each path that exists as a regular file and is not in `seen_files`,
adding it to `seen_files` (lines 336-341).  Returns the appended config
files and the final seen set. -/
def configScanAux (t : FSTree) : List FPath → List FPath → List FPath × List FPath
  | [], seen => ([], seen)
  | c :: cs, seen =>
    if isFileAt t c then
      if c ∈ seen then configScanAux t cs seen
      else
        let r := configScanAux t cs (seen ++ [c])
        (c :: r.1, r.2)
    else configScanAux t cs seen

/-- `find_common_config_files(source_dir, seen_files)` (lines 323-343). -/
def find_common_config_files (t : FSTree) (seen : List FPath) : List FPath × List FPath :=
  configScanAux t COMMON_CONFIGS seen

/-!
### Copying and cleanup (lines 346-388)
-/

/-- `copy_file_with_metadata(src, dst)` (lines 346-366): the whole body is
wrapped in `try/except Exception`, so the call returns `False` exactly when
some step of the copy raises, and `True` otherwise.  `raises` is the
environment's verdict on whether the copy of this file raises. -/
def copy_file_with_metadata (raises : Bool) : Bool :=
  !raises

/-- Everything `cleanup_on_failure` observes about the world: whether the
worktree path exists when cleanup starts, whether the `subprocess.run` of
`git worktree remove --force` itself raises (e.g. the git binary is missing),
whether the path still exists after that attempt, whether `shutil.rmtree`
raises, and what is left on disk if it does. -/
structure CleanupEnv where
  dirExists : Bool
  gitRemoveRaises : Bool
  existsAfterGit : Bool
  rmtreeRaises : Bool
  existsIfRmtreeFails : Bool
deriving DecidableEq

/-- Python `try: step except: pass` — any exception of the step is
swallowed. -/
def pyTryPass (step : Except Unit Unit) : Except Unit Unit :=
  match step with
  | .error _ => .ok ()
  | .ok u => .ok u

/-- `cleanup_on_failure(worktree_path)` (lines 369-388) in an explicit
exception monad: if the path exists, try the forced `git worktree remove`
with its own failure swallowed (lines 373-381); if the path still exists, try
`shutil.rmtree` with its own failure swallowed (lines 384-388).  The returned
value is whether the worktree path still exists on disk afterwards; an
`.error` result would mean cleanup itself raised. -/
def cleanup_on_failure (ce : CleanupEnv) : Except Unit Bool := do
  if ce.dirExists then
    let _ ← pyTryPass (if ce.gitRemoveRaises then .error () else .ok ())
    if ce.existsAfterGit then
      let _ ← pyTryPass (if ce.rmtreeRaises then .error () else .ok ())
      pure (if ce.rmtreeRaises then ce.existsIfRmtreeFails else false)
    else
      pure false
  else
    pure ce.dirExists

/-- Did an `Except`-valued computation raise? -/
def exceptRaised (x : Except Unit Bool) : Bool :=
  match x with
  | .error _ => true
  | .ok _ => false

/-- The value of a non-raising `Except` computation (`dflt` in the
impossible raising case). -/
def exceptGetD (x : Except Unit Bool) (dflt : Bool) : Bool :=
  match x with
  | .ok b => b
  | .error _ => dflt

/-!
### The orchestrator (`main`, lines 391-580)

Every externally determined outcome is a field of `Env`; `mainRun` replays
`main`'s control flow over those outcomes and records the commands issued,
the reported error, the final exit code and the files scheduled and copied.
-/

/-- Externally determined outcomes of one run. -/
structure Env where
  /-- `git rev-parse --git-dir` succeeds (line 415). -/
  isRepo : Bool
  /-- `git check-ref-format --branch <branch>` accepts the name (line 445). -/
  branchValid : Bool
  /-- `worktree_path.exists()` at line 454. -/
  pathExistsAlready : Bool
  /-- `git show-ref refs/heads/<branch>` succeeds (line 463). -/
  branchLocal : Bool
  /-- `git show-ref refs/remotes/origin/<branch>` succeeds (line 467). -/
  branchRemote : Bool
  /-- `git worktree add` succeeds (lines 479/482). -/
  addOk : Bool
  /-- A failed `git worktree add` left a partial directory on disk. -/
  partialAddLeftDir : Bool
  /-- The ignore file at the repository root. -/
  gitignore : GitignoreFile
  /-- The source tree under the repository root. -/
  tree : FSTree
  /-- An exception escapes `find_git_ignored_files` (an error the scanner
  does not handle internally, i.e. anything other than the caught
  ignore-file read failure and the caught per-file `stat` failures); it is
  then caught by `except Exception` at line 577. -/
  scanRaises : Bool
  /-- Which file copies raise inside `copy_file_with_metadata`. -/
  copyRaises : FPath → Bool
  /-- Cleanup sub-step outcome: the `git worktree remove` call raises. -/
  cuGitRemoveRaises : Bool
  /-- Cleanup sub-step outcome: the path still exists after `git worktree
  remove`. -/
  cuExistsAfterGit : Bool
  /-- Cleanup sub-step outcome: `shutil.rmtree` raises. -/
  cuRmtreeRaises : Bool
  /-- Disk state when `shutil.rmtree` raised partway. -/
  cuExistsIfRmtreeFails : Bool

/-- The fatal error reported by a failing run (section 7 taxonomy). -/
inductive ErrKind where
  | notARepo
  | invalidBranch
  | pathCollision
  | cmdFailed
  | unexpected
deriving DecidableEq

/-- Observable milestones of a run, in order of occurrence. -/
inductive Ev where
  | revParseGitDir
  | checkRefFormat
  | pathCheck
  | showRefLocal
  | showRefRemote
  | worktreeAdd
  | scanEv
  | copyEv
  | reportEv
  | cleanupEv
deriving DecidableEq

/-- What one run of `main` did. -/
structure RunResult where
  exitCode : Nat
  events : List Ev
  errMsg : Option ErrKind
  /-- The alternate-path suggestion of line 456 was printed. -/
  printedAltPathSuggestion : Bool
  cleanupRan : Bool
  /-- `git worktree add` completed successfully in this run. -/
  worktreeCreatedOk : Bool
  /-- The worktree path exists on disk when the process exits. -/
  worktreeExistsAtEnd : Bool
  /-- The worktree was added with `-b` (branch did not exist). -/
  createdNewBranch : Bool
  /-- The final `files_to_copy` list the copy loop ran over (empty when the
  run failed before the copy loop). -/
  filesToCopy : List FPath
  /-- The files for which `copy_file_with_metadata` returned `True`. -/
  copied : List FPath
  skippedDirs : List Str
  largeFileWarns : List (FPath × Nat)
deriving DecidableEq

/-- `main()` (lines 391-580) over the outcomes in `e`.
Control flow of the source: validate the repository (415-418); generate
defaults; validate the branch name (445-448); check the destination path
(454-457); inside `try`: probe branch existence (461-472), `git worktree add`
(478-482), scan the ignore file if it exists (493-503), collect common config
files (506-512), copy each candidate tolerating per-file failure (515-533),
report (536-567); `except` handlers run `cleanup_on_failure` and exit 1
(569-580). -/
def mainRun (e : Env) : RunResult :=
  if !e.isRepo then
    { exitCode := 1, events := [.revParseGitDir], errMsg := some .notARepo,
      printedAltPathSuggestion := false, cleanupRan := false, worktreeCreatedOk := false,
      worktreeExistsAtEnd := false, createdNewBranch := false, filesToCopy := [],
      copied := [], skippedDirs := [], largeFileWarns := [] }
  else if !e.branchValid then
    { exitCode := 1, events := [.revParseGitDir, .checkRefFormat],
      errMsg := some .invalidBranch, printedAltPathSuggestion := false,
      cleanupRan := false, worktreeCreatedOk := false, worktreeExistsAtEnd := false,
      createdNewBranch := false, filesToCopy := [], copied := [], skippedDirs := [],
      largeFileWarns := [] }
  else if e.pathExistsAlready then
    { exitCode := 1, events := [.revParseGitDir, .checkRefFormat, .pathCheck],
      errMsg := some .pathCollision, printedAltPathSuggestion := true,
      cleanupRan := false, worktreeCreatedOk := false, worktreeExistsAtEnd := true,
      createdNewBranch := false, filesToCopy := [], copied := [], skippedDirs := [],
      largeFileWarns := [] }
  else
    let branchExists := e.branchLocal || e.branchRemote
    let preEvs := [Ev.revParseGitDir, .checkRefFormat, .pathCheck, .showRefLocal] ++
      (if e.branchLocal then [] else [Ev.showRefRemote]) ++ [Ev.worktreeAdd]
    if !e.addOk then
      let cres := cleanup_on_failure
        ⟨e.partialAddLeftDir, e.cuGitRemoveRaises, e.cuExistsAfterGit,
         e.cuRmtreeRaises, e.cuExistsIfRmtreeFails⟩
      { exitCode := 1, events := preEvs ++ [.cleanupEv], errMsg := some .cmdFailed,
        printedAltPathSuggestion := false, cleanupRan := true, worktreeCreatedOk := false,
        worktreeExistsAtEnd := exceptGetD cres true, createdNewBranch := !branchExists,
        filesToCopy := [], copied := [], skippedDirs := [], largeFileWarns := [] }
    else if e.gitignore.existsOnDisk && e.scanRaises then
      let cres := cleanup_on_failure
        ⟨true, e.cuGitRemoveRaises, e.cuExistsAfterGit,
         e.cuRmtreeRaises, e.cuExistsIfRmtreeFails⟩
      { exitCode := 1, events := preEvs ++ [.scanEv, .cleanupEv],
        errMsg := some .unexpected, printedAltPathSuggestion := false,
        cleanupRan := true, worktreeCreatedOk := true,
        worktreeExistsAtEnd := exceptGetD cres true, createdNewBranch := !branchExists,
        filesToCopy := [], copied := [], skippedDirs := [], largeFileWarns := [] }
    else
      let scanSt := if e.gitignore.existsOnDisk
        then find_git_ignored_files e.gitignore e.tree else initScan
      let seen := scanSt.cands
      let configs := (find_common_config_files e.tree seen).1
      let files := scanSt.cands ++ configs
      let copiedFiles := files.filter (fun p => copy_file_with_metadata (e.copyRaises p))
      { exitCode := 0,
        events := preEvs ++ (if e.gitignore.existsOnDisk then [Ev.scanEv] else []) ++
          [Ev.copyEv, Ev.reportEv],
        errMsg := none, printedAltPathSuggestion := false, cleanupRan := false,
        worktreeCreatedOk := true, worktreeExistsAtEnd := true,
        createdNewBranch := !branchExists, filesToCopy := files, copied := copiedFiles,
        skippedDirs := scanSt.skipped, largeFileWarns := scanSt.warns }

/-!
### Specification predicates for the scan invariants
-/

/-- What is true of every path the walk appends to `files_to_copy`: it is a
file entry of the walked tree (relative to the walk's root prefix `pre`),
every directory on the way to it is non-blacklisted, its `stat` succeeded
with a size within the ceiling, and its basename matches some pattern. -/
def CandWitness (pats : List Str) (pre : FPath) (t : FSTree) (p : FPath) : Prop :=
  ∃ q n sz, p = pre ++ q ++ [n] ∧ (∀ c ∈ q, is_blacklisted c = false) ∧
    (some sz) ∈ fileStatsTree t (q ++ [n]) ∧ sz ≤ MAX_FILE_SIZE_BYTES ∧
    pats.any (fun pat => fnmatch n pat) = true

/-- What is true of every large-file warning the walk records: same shape,
but the size exceeds the ceiling. -/
def WarnWitness (pats : List Str) (pre : FPath) (t : FSTree) (w : FPath × Nat) : Prop :=
  ∃ q n, w.1 = pre ++ q ++ [n] ∧ (∀ c ∈ q, is_blacklisted c = false) ∧
    (some w.2) ∈ fileStatsTree t (q ++ [n]) ∧ MAX_FILE_SIZE_BYTES < w.2 ∧
    pats.any (fun pat => fnmatch n pat) = true

/-- `CandWitness` through one non-blacklisted child of a forest. -/
def CandWitnessF (pats : List Str) (pre : FPath) (ds : Forest) (p : FPath) : Prop :=
  ∃ name sub, (name, sub) ∈ forestList ds ∧ is_blacklisted name = false ∧
    CandWitness pats (pre ++ [name]) sub p

/-- `WarnWitness` through one non-blacklisted child of a forest. -/
def WarnWitnessF (pats : List Str) (pre : FPath) (ds : Forest) (w : FPath × Nat) : Prop :=
  ∃ name sub, (name, sub) ∈ forestList ds ∧ is_blacklisted name = false ∧
    WarnWitness pats (pre ++ [name]) sub w

/-- What is true of a path the walk reached and then silently dropped: a
reachable, pattern-matched file entry at that path has a failing `stat`. -/
def NoneStat (pats : List Str) (pre : FPath) (t : FSTree) (p : FPath) : Prop :=
  ∃ q n, p = pre ++ q ++ [n] ∧ (∀ c ∈ q, is_blacklisted c = false) ∧
    (none : Option Nat) ∈ fileStatsTree t (q ++ [n]) ∧
    pats.any (fun pat => fnmatch n pat) = true

/-- `NoneStat` through one non-blacklisted child of a forest. -/
def NoneStatF (pats : List Str) (pre : FPath) (ds : Forest) (p : FPath) : Prop :=
  ∃ name sub, (name, sub) ∈ forestList ds ∧ is_blacklisted name = false ∧
    NoneStat pats (pre ++ [name]) sub p

/-- `NoneStat` at file level: a stat-failing matched file entry of the
current directory. -/
def FileNone (pats : List Str) (pre : FPath) (files : List (Str × Option Nat))
    (p : FPath) : Prop :=
  ∃ n, (n, none) ∈ files ∧ p = pre ++ [n] ∧ pats.any (fun pat => fnmatch n pat) = true

/-- One scan phase took state `st` to state `res`: all four components are
append-only; the appended candidates are pairwise distinct, were unseen
before the phase and are seen after it, and each satisfies `Pc`; the
appended warnings each satisfy `Pw`. -/
def ScanStep (Pc : FPath → Prop) (Pw : FPath × Nat → Prop) (st res : ScanState) : Prop :=
  ∃ dc dw dse dsk,
    res.cands = st.cands ++ dc ∧ res.warns = st.warns ++ dw ∧
    res.seen = st.seen ++ dse ∧ res.skipped = st.skipped ++ dsk ∧
    dc.Nodup ∧ (∀ p ∈ dc, p ∉ st.seen ∧ p ∈ res.seen) ∧
    (∀ p ∈ dc, Pc p) ∧ (∀ w ∈ dw, Pw w)

/-!
### Concrete runs used by the counterexamples and witnesses
-/

/-- A run in which every external step succeeds, over an empty repository. -/
def exEnvBase : Env :=
  { isRepo := true, branchValid := true, pathExistsAlready := false,
    branchLocal := true, branchRemote := false, addOk := true,
    partialAddLeftDir := false, gitignore := .absent, tree := .node [] .nil,
    scanRaises := false, copyRaises := fun _ => false,
    cuGitRemoveRaises := false, cuExistsAfterGit := false,
    cuRmtreeRaises := false, cuExistsIfRmtreeFails := false }

/-- A repository whose only file is an oversized `.env` (one byte above the
ceiling). -/
def exTreeC1 : FSTree := .node [(".env".data, some (MAX_FILE_SIZE_BYTES + 1))] .nil

/-- `.gitignore` lists `.env`; the tree holds the oversized `.env`. -/
def exEnvC1 : Env :=
  { exEnvBase with gitignore := .content [".env".data], tree := exTreeC1 }

/-- A repository with one small candidate file behind a normal directory. -/
def exTreeC1b : FSTree :=
  .node [] (.cons "sub".data (.node [(".env.local".data, some 7)] .nil) .nil)

/-- The ignore file exists and the scanner raises an error it does not
handle; the cleanup sub-steps succeed. -/
def exEnvC2 : Env :=
  { exEnvBase with gitignore := .content [], scanRaises := true }

/-- The ignore file exists but cannot be read. -/
def exEnvC2b : Env := { exEnvBase with gitignore := .unreadable }

/-- An explicitly supplied branch name that git rejects, together with a
destination path that already exists. -/
def exEnvC4 : Env := { exEnvBase with branchValid := false, pathExistsAlready := true }

/-- A run with a valid branch whose destination path already exists. -/
def exEnvC4w : Env := { exEnvBase with pathExistsAlready := true }

/-- The empty directory nested two levels down. -/
def exTreeC5inner : FSTree := .node [] .nil

/-- A `node_modules` directory that itself contains a `.venv` directory. -/
def exTreeC5nm : FSTree := .node [] (.cons ".venv".data exTreeC5inner .nil)

/-- A repository containing `node_modules/.venv/`. -/
def exTreeC5 : FSTree := .node [] (.cons "node_modules".data exTreeC5nm .nil)

/-- A repository with `sub/.env` (a matchable file below a normal directory)
and a blacklisted `node_modules` directory. -/
def exTreeC5w : FSTree :=
  .node [] (.cons "sub".data (.node [(".env".data, some 3)] .nil)
    (.cons "node_modules".data (.node [] .nil) .nil))

/-- A run scanning `exTreeC5w` with the pattern `.env`. -/
def exEnvC6 : Env :=
  { exEnvBase with gitignore := .content [".env".data], tree := exTreeC5w }

/-- A repository with two common-config files at the root. -/
def exTreeC7 : FSTree :=
  .node [(".env".data, some 100), (".env.local".data, some 50)] .nil

/-- A run in which copying `.env` fails and copying `.env.local` succeeds. -/
def exEnvC7 : Env :=
  { exEnvBase with
    tree := exTreeC7,
    copyRaises := fun p => p == [".env".data] }

/-- A run in which `git worktree add` fails and every cleanup sub-step
fails too. -/
def exEnvC8 : Env :=
  { exEnvBase with
    addOk := false, partialAddLeftDir := true,
    cuGitRemoveRaises := true, cuExistsAfterGit := true, cuRmtreeRaises := true,
    cuExistsIfRmtreeFails := true }

/-- A run with no ignore file over a repository holding one config file. -/
def exEnvC9 : Env :=
  { exEnvBase with
    tree := .node [] (.cons "config".data (.node [("local.yaml".data, some 8)] .nil) .nil) }

/-- A repository whose only file `a.key` is listed by the directory scan but
whose `stat` raises `OSError`. -/
def exTreeC10 : FSTree := .node [("a.key".data, none)] .nil

/-!
## Theorems

First the generic machinery about one phase of the scan (`ScanStep`), then
the walk invariants, then the per-claim theorems.
-/

/-- A phase that does nothing is a `ScanStep`. -/
theorem ScanStep.of_eq (Pc : FPath → Prop) (Pw : FPath × Nat → Prop) (st : ScanState) :
    ScanStep Pc Pw st st := by
  refine ⟨[], [], [], [], by simp, by simp, by simp, by simp, List.nodup_nil, ?_, ?_, ?_⟩ <;>
    intro x hx <;> cases hx

/-- `ScanStep` composes. -/
theorem ScanStep.comp {Pc : FPath → Prop} {Pw : FPath × Nat → Prop} {st st1 res : ScanState}
    (h1 : ScanStep Pc Pw st st1) (h2 : ScanStep Pc Pw st1 res) : ScanStep Pc Pw st res := by
  obtain ⟨dc1, dw1, dse1, dsk1, hc1, hw1, hse1, hsk1, hnd1, hs1, hpc1, hpw1⟩ := h1
  obtain ⟨dc2, dw2, dse2, dsk2, hc2, hw2, hse2, hsk2, hnd2, hs2, hpc2, hpw2⟩ := h2
  refine ⟨dc1 ++ dc2, dw1 ++ dw2, dse1 ++ dse2, dsk1 ++ dsk2, ?_, ?_, ?_, ?_, ?_, ?_, ?_, ?_⟩
  · rw [hc2, hc1, List.append_assoc]
  · rw [hw2, hw1, List.append_assoc]
  · rw [hse2, hse1, List.append_assoc]
  · rw [hsk2, hsk1, List.append_assoc]
  · refine hnd1.append hnd2 ?_
    intro p hp1 hp2
    exact (hs2 p hp2).1 ((hs1 p hp1).2)
  · intro p hp
    rcases List.mem_append.mp hp with hp | hp
    · exact ⟨(hs1 p hp).1, by rw [hse2]; exact List.mem_append_left _ ((hs1 p hp).2)⟩
    · exact ⟨fun hmem => (hs2 p hp).1 (by rw [hse1]; exact List.mem_append_left _ hmem),
        (hs2 p hp).2⟩
  · intro p hp
    rcases List.mem_append.mp hp with hp | hp
    · exact hpc1 p hp
    · exact hpc2 p hp
  · intro w hw
    rcases List.mem_append.mp hw with hw | hw
    · exact hpw1 w hw
    · exact hpw2 w hw

/-- The witness predicates of a `ScanStep` can be weakened. -/
theorem ScanStep.mono {Pc Pc' : FPath → Prop} {Pw Pw' : FPath × Nat → Prop}
    {st res : ScanState} (h : ScanStep Pc Pw st res)
    (hc : ∀ p, Pc p → Pc' p) (hw : ∀ w, Pw w → Pw' w) : ScanStep Pc' Pw' st res := by
  obtain ⟨dc, dw, dse, dsk, h1, h2, h3, h4, h5, h6, h7, h8⟩ := h
  exact ⟨dc, dw, dse, dsk, h1, h2, h3, h4, h5, h6, fun p hp => hc p (h7 p hp),
    fun w hww => hw w (h8 w hww)⟩

/-- Recording one skipped directory is a `ScanStep`. -/
theorem ScanStep.skipAdd (Pc : FPath → Prop) (Pw : FPath × Nat → Prop) (st : ScanState)
    (name : Str) : ScanStep Pc Pw st { st with skipped := st.skipped ++ [name] } := by
  refine ⟨[], [], [], [name], by simp, by simp, by simp, by simp, List.nodup_nil, ?_, ?_, ?_⟩ <;>
    intro x hx <;> cases hx

/-- Processing one file is a `ScanStep`: any appended candidate is this very
file, seen-checked, sized within the ceiling and pattern-matched; any
appended warning is this file with an oversized `stat`. -/
theorem processFile_step (pats : List Str) (pre : FPath) (st : ScanState)
    (fname : Str) (stt : Option Nat) :
    ScanStep
      (fun p => p = pre ++ [fname] ∧ ∃ sz, stt = some sz ∧ sz ≤ MAX_FILE_SIZE_BYTES ∧
        pats.any (fun pat => fnmatch fname pat) = true)
      (fun w => w.1 = pre ++ [fname] ∧ stt = some w.2 ∧ MAX_FILE_SIZE_BYTES < w.2 ∧
        pats.any (fun pat => fnmatch fname pat) = true)
      st (processFile pats pre st fname stt) := by
  cases stt with
  | none =>
    simp only [processFile]
    split
    next hmatch =>
      split
      next hseen => exact ScanStep.of_eq _ _ _
      next hseen =>
        refine ⟨[], [], [pre ++ [fname]], [], by simp, by simp, by simp, by simp,
          List.nodup_nil, ?_, ?_, ?_⟩ <;> intro x hx <;> cases hx
    next h => exact ScanStep.of_eq _ _ _
  | some sz =>
    simp only [processFile]
    split
    next hmatch =>
      split
      next hseen => exact ScanStep.of_eq _ _ _
      next hseen =>
        split
        next hbig =>
          refine ⟨[], [(pre ++ [fname], sz)], [pre ++ [fname]], [], by simp, by simp,
            by simp, by simp, List.nodup_nil, ?_, ?_, ?_⟩
          · intro x hx
            cases hx
          · intro x hx
            cases hx
          · intro w hw
            rcases List.mem_singleton.mp hw with rfl
            exact ⟨rfl, rfl, hbig, hmatch⟩
        next hbig =>
          refine ⟨[pre ++ [fname]], [], [pre ++ [fname]], [], by simp, by simp, by simp,
            by simp, List.nodup_singleton _, ?_, ?_, ?_⟩
          · intro p hp
            rcases List.mem_singleton.mp hp with rfl
            exact ⟨hseen, by simp⟩
          · intro p hp
            rcases List.mem_singleton.mp hp with rfl
            exact ⟨rfl, sz, rfl, Nat.le_of_not_lt hbig, hmatch⟩
          · intro w hw
            cases hw
    next h => exact ScanStep.of_eq _ _ _

/-- The file loop of one visited directory is a `ScanStep`, with the file
entries of that directory as witnesses. -/
theorem filesFold_step (pats : List Str) (pre : FPath) (files : List (Str × Option Nat))
    (st : ScanState) :
    ScanStep
      (fun p => ∃ n sz, (n, some sz) ∈ files ∧ p = pre ++ [n] ∧ sz ≤ MAX_FILE_SIZE_BYTES ∧
        pats.any (fun pat => fnmatch n pat) = true)
      (fun w => ∃ n, (n, some w.2) ∈ files ∧ w.1 = pre ++ [n] ∧ MAX_FILE_SIZE_BYTES < w.2 ∧
        pats.any (fun pat => fnmatch n pat) = true)
      st (files.foldl (fun s f => processFile pats pre s f.1 f.2) st) := by
  induction files generalizing st with
  | nil => exact ScanStep.of_eq _ _ _
  | cons f fs ih =>
    simp only [List.foldl_cons]
    refine ScanStep.comp ((processFile_step pats pre st f.1 f.2).mono ?_ ?_) ((ih _).mono ?_ ?_)
    · rintro p ⟨hpe, sz, hst, hle, hm⟩
      have hf : (f.1, some sz) = f := by rw [← hst]
      exact ⟨f.1, sz, by rw [hf]; exact List.mem_cons_self f fs, hpe, hle, hm⟩
    · rintro w ⟨hpe, hst, hlt, hm⟩
      have hf : (f.1, some w.2) = f := by rw [← hst]
      exact ⟨f.1, by rw [hf]; exact List.mem_cons_self f fs, hpe, hlt, hm⟩
    · rintro p ⟨n, sz, hmem, hpe, hle, hm⟩
      exact ⟨n, sz, List.mem_cons_of_mem f hmem, hpe, hle, hm⟩
    · rintro w ⟨n, hmem, hpe, hlt, hm⟩
      exact ⟨n, List.mem_cons_of_mem f hmem, hpe, hlt, hm⟩

/-- `fileStatsTree` on a non-trivial path delegates to the forest. -/
theorem fileStatsTree_cons (fs : List (Str × Option Nat)) (ds : Forest) (c : Str)
    (p : FPath) (hp : p ≠ []) :
    fileStatsTree (.node fs ds) (c :: p) = statsForest ds c p := by
  cases p with
  | nil => exact absurd rfl hp
  | cons a as => rfl

/-- A file entry of a node is a `stat` outcome at its basename. -/
theorem mem_fileStats_of_mem (fs : List (Str × Option Nat)) (ds : Forest) (n : Str)
    (stt : Option Nat) (h : (n, stt) ∈ fs) :
    stt ∈ fileStatsTree (.node fs ds) [n] := by
  have : stt ∈ (fs.filter (fun f => f.1 = n)).map Prod.snd :=
    List.mem_map_of_mem _ (List.mem_filter.mpr ⟨h, by simp⟩)
  exact this

/-- A `stat` outcome inside a named child is a `stat` outcome of the
forest at that name. -/
theorem mem_statsForest_of_mem (ds : Forest) (name : Str) (sub : FSTree) (p : FPath)
    (x : Option Nat) (hmem : (name, sub) ∈ forestList ds) (hx : x ∈ fileStatsTree sub p) :
    x ∈ statsForest ds name p := by
  cases ds with
  | nil => cases hmem
  | cons nm t rest =>
    rcases List.mem_cons.mp hmem with heq | htail
    · cases heq
      show x ∈ (if name = name then fileStatsTree sub p else []) ++ statsForest rest name p
      rw [if_pos rfl]
      exact List.mem_append_left _ hx
    · show x ∈ (if nm = name then fileStatsTree t p else []) ++ statsForest rest name p
      exact List.mem_append_right _ (mem_statsForest_of_mem rest name sub p x htail hx)

/-- Candidates contributed by the files of the visited node satisfy
`CandWitness` for that node. -/
theorem candw_of_file (pats : List Str) (pre : FPath) (files : List (Str × Option Nat))
    (dirs : Forest) :
    ∀ p, (∃ n sz, (n, some sz) ∈ files ∧ p = pre ++ [n] ∧ sz ≤ MAX_FILE_SIZE_BYTES ∧
        pats.any (fun pat => fnmatch n pat) = true) →
      CandWitness pats pre (.node files dirs) p := by
  rintro p ⟨n, sz, hmem, rfl, hle, hm⟩
  exact ⟨[], n, sz, by simp, by simp, mem_fileStats_of_mem files dirs n (some sz) hmem, hle, hm⟩

/-- Warnings contributed by the files of the visited node satisfy
`WarnWitness` for that node. -/
theorem warnw_of_file (pats : List Str) (pre : FPath) (files : List (Str × Option Nat))
    (dirs : Forest) :
    ∀ w, (∃ n, (n, some w.2) ∈ files ∧ w.1 = pre ++ [n] ∧ MAX_FILE_SIZE_BYTES < w.2 ∧
        pats.any (fun pat => fnmatch n pat) = true) →
      WarnWitness pats pre (.node files dirs) w := by
  rintro w ⟨n, hmem, hpe, hlt, hm⟩
  exact ⟨[], n, by simpa using hpe, by simp,
    mem_fileStats_of_mem files dirs n (some w.2) hmem, hlt, hm⟩

/-- Candidates contributed by the subdirectories satisfy `CandWitness` for
the parent node. -/
theorem candw_of_forest (pats : List Str) (pre : FPath) (files : List (Str × Option Nat))
    (dirs : Forest) :
    ∀ p, CandWitnessF pats pre dirs p → CandWitness pats pre (.node files dirs) p := by
  rintro p ⟨name, sub, hmem, hbl, q, n, sz, rfl, hq, hstats, hle, hm⟩
  refine ⟨name :: q, n, sz, by simp, ?_, ?_, hle, hm⟩
  · intro c hc
    rcases List.mem_cons.mp hc with rfl | hc
    · exact hbl
    · exact hq c hc
  · simp only [List.cons_append]
    rw [fileStatsTree_cons files dirs name (q ++ [n]) (by simp)]
    exact mem_statsForest_of_mem dirs name sub (q ++ [n]) (some sz) hmem hstats

/-- Warnings contributed by the subdirectories satisfy `WarnWitness` for the
parent node. -/
theorem warnw_of_forest (pats : List Str) (pre : FPath) (files : List (Str × Option Nat))
    (dirs : Forest) :
    ∀ w, WarnWitnessF pats pre dirs w → WarnWitness pats pre (.node files dirs) w := by
  rintro w ⟨name, sub, hmem, hbl, q, n, hpe, hq, hstats, hlt, hm⟩
  refine ⟨name :: q, n, by rw [hpe]; simp, ?_, ?_, hlt, hm⟩
  · intro c hc
    rcases List.mem_cons.mp hc with rfl | hc
    · exact hbl
    · exact hq c hc
  · simp only [List.cons_append]
    rw [fileStatsTree_cons files dirs name (q ++ [n]) (by simp)]
    exact mem_statsForest_of_mem dirs name sub (q ++ [n]) (some w.2) hmem hstats

/-- `CandWitness` for the head child of a forest. -/
theorem candwF_head (pats : List Str) (pre : FPath) (name : Str) (t : FSTree)
    (rest : Forest) (hbl : is_blacklisted name = false) :
    ∀ p, CandWitness pats (pre ++ [name]) t p → CandWitnessF pats pre (.cons name t rest) p :=
  fun _ h => ⟨name, t, List.mem_cons_self _ _, hbl, h⟩

/-- `WarnWitness` for the head child of a forest. -/
theorem warnwF_head (pats : List Str) (pre : FPath) (name : Str) (t : FSTree)
    (rest : Forest) (hbl : is_blacklisted name = false) :
    ∀ w, WarnWitness pats (pre ++ [name]) t w → WarnWitnessF pats pre (.cons name t rest) w :=
  fun _ h => ⟨name, t, List.mem_cons_self _ _, hbl, h⟩

/-- `CandWitnessF` is preserved by extending the forest on the left. -/
theorem candwF_tail (pats : List Str) (pre : FPath) (name : Str) (t : FSTree)
    (rest : Forest) :
    ∀ p, CandWitnessF pats pre rest p → CandWitnessF pats pre (.cons name t rest) p := by
  rintro p ⟨nm, sub, hmem, hbl, h⟩
  exact ⟨nm, sub, List.mem_cons_of_mem _ hmem, hbl, h⟩

/-- `WarnWitnessF` is preserved by extending the forest on the left. -/
theorem warnwF_tail (pats : List Str) (pre : FPath) (name : Str) (t : FSTree)
    (rest : Forest) :
    ∀ w, WarnWitnessF pats pre rest w → WarnWitnessF pats pre (.cons name t rest) w := by
  rintro w ⟨nm, sub, hmem, hbl, h⟩
  exact ⟨nm, sub, List.mem_cons_of_mem _ hmem, hbl, h⟩

mutual
/-- Master invariant of the walk from a node. -/
theorem walkTree_step (pats : List Str) (pre : FPath) (st : ScanState) (t : FSTree) :
    ScanStep (CandWitness pats pre t) (WarnWitness pats pre t) st (walkTree pats pre st t) := by
  cases t with
  | node files dirs =>
    rw [walkTree]
    exact ScanStep.comp
      ((filesFold_step pats pre files st).mono (candw_of_file pats pre files dirs)
        (warnw_of_file pats pre files dirs))
      ((walkDirs_step pats pre
          (files.foldl (fun s f => processFile pats pre s f.1 f.2) st) dirs).mono
        (candw_of_forest pats pre files dirs) (warnw_of_forest pats pre files dirs))
/-- Master invariant of the walk over the children of a node. -/
theorem walkDirs_step (pats : List Str) (pre : FPath) (st : ScanState) (ds : Forest) :
    ScanStep (CandWitnessF pats pre ds) (WarnWitnessF pats pre ds) st (walkDirs pats pre st ds) := by
  cases ds with
  | nil =>
    rw [walkDirs]
    exact ScanStep.of_eq _ _ _
  | cons name t rest =>
    rw [walkDirs]
    split
    next hbl =>
      exact ScanStep.comp (ScanStep.skipAdd _ _ _ _)
        ((walkDirs_step pats pre _ rest).mono (candwF_tail pats pre name t rest)
          (warnwF_tail pats pre name t rest))
    next hbl =>
      exact ScanStep.comp
        ((walkTree_step pats (pre ++ [name]) st t).mono
          (candwF_head pats pre name t rest (by simpa using hbl))
          (warnwF_head pats pre name t rest (by simpa using hbl)))
        ((walkDirs_step pats pre _ rest).mono (candwF_tail pats pre name t rest)
          (warnwF_tail pats pre name t rest))
end

/-- The walk only ever extends `skipped_dirs`. -/
theorem walkDirs_skipped_sub (pats : List Str) (pre : FPath) (st : ScanState) (ds : Forest) :
    ∀ x ∈ st.skipped, x ∈ (walkDirs pats pre st ds).skipped := by
  obtain ⟨dc, dw, dse, dsk, _, _, _, hsk, _, _, _, _⟩ := walkDirs_step pats pre st ds
  intro x hx
  rw [hsk]
  exact List.mem_append_left _ hx

mutual
/-- Every blacklisted child of a directory that the walk actually visits
(reached through non-blacklisted ancestors only) is recorded in
`skipped_dirs`. -/
theorem walkTree_records (pats : List Str) (pre : FPath) (st : ScanState) (t : FSTree)
    (q : FPath) (u : FSTree) (name : Str) (sub : FSTree)
    (hu : u ∈ subtreesAt t q) (hq : ∀ c ∈ q, is_blacklisted c = false)
    (hmem : (name, sub) ∈ forestList u.dirsOf) (hbl : is_blacklisted name = true) :
    name ∈ (walkTree pats pre st t).skipped := by
  cases t with
  | node files dirs =>
    rw [walkTree]
    cases q with
    | nil =>
      have hut : u = FSTree.node files dirs := by
        have h2 : u ∈ [FSTree.node files dirs] := hu
        simpa using h2
      subst hut
      exact walkDirs_records_here pats pre _ dirs name sub hmem hbl
    | cons c q' =>
      have hu' : u ∈ subtreesForest dirs c q' := hu
      exact walkDirs_records_deep pats pre _ dirs c q' u name sub hu'
        (hq c (List.mem_cons_self c q')) (fun x hx => hq x (List.mem_cons_of_mem c hx))
        hmem hbl
/-- Every blacklisted immediate child of the current node is recorded. -/
theorem walkDirs_records_here (pats : List Str) (pre : FPath) (st : ScanState) (ds : Forest)
    (name : Str) (sub : FSTree) (hmem : (name, sub) ∈ forestList ds)
    (hbl : is_blacklisted name = true) :
    name ∈ (walkDirs pats pre st ds).skipped := by
  cases ds with
  | nil => cases hmem
  | cons nm t rest =>
    rw [walkDirs]
    rcases List.mem_cons.mp hmem with heq | htail
    · cases heq
      rw [if_pos hbl]
      refine walkDirs_skipped_sub pats pre _ rest name ?_
      simp
    · split
      · exact walkDirs_records_here pats pre _ rest name sub htail hbl
      · exact walkDirs_records_here pats pre _ rest name sub htail hbl
/-- Every blacklisted directory reached below a non-blacklisted child of the
current node is recorded. -/
theorem walkDirs_records_deep (pats : List Str) (pre : FPath) (st : ScanState) (ds : Forest)
    (c : Str) (q' : FPath) (u : FSTree) (name : Str) (sub : FSTree)
    (hu : u ∈ subtreesForest ds c q') (hc : is_blacklisted c = false)
    (hq : ∀ x ∈ q', is_blacklisted x = false)
    (hmem : (name, sub) ∈ forestList u.dirsOf) (hbl : is_blacklisted name = true) :
    name ∈ (walkDirs pats pre st ds).skipped := by
  cases ds with
  | nil => cases hu
  | cons nm t rest =>
    rw [walkDirs]
    have hu2 : u ∈ (if nm = c then subtreesAt t q' else []) ++ subtreesForest rest c q' := hu
    rcases List.mem_append.mp hu2 with hhead | htail
    · by_cases hnc : nm = c
      · rw [if_pos hnc] at hhead
        rw [if_neg (by rw [hnc, hc]; exact Bool.false_ne_true)]
        refine walkDirs_skipped_sub pats pre _ rest name ?_
        exact walkTree_records pats (pre ++ [nm]) st t q' u name sub hhead hq hmem hbl
      · rw [if_neg hnc] at hhead
        cases hhead
    · split
      · exact walkDirs_records_deep pats pre _ rest c q' u name sub htail hc hq hmem hbl
      · exact walkDirs_records_deep pats pre _ rest c q' u name sub htail hc hq hmem hbl
end

/-- Soundness of the common-config loop: the returned paths are pairwise new
(not in the incoming seen set), exist as regular files, and come from the
scanned list. -/
theorem configScanAux_spec (t : FSTree) (cs : List FPath) (seen : List FPath) :
    (configScanAux t cs seen).1.Nodup ∧
    ∀ p ∈ (configScanAux t cs seen).1, p ∉ seen ∧ isFileAt t p = true ∧ p ∈ cs := by
  induction cs generalizing seen with
  | nil => simp [configScanAux]
  | cons c cs ih =>
    rw [configScanAux]
    split
    next hfile =>
      split
      next hseen =>
        obtain ⟨hnd, hall⟩ := ih seen
        exact ⟨hnd, fun p hp => ⟨(hall p hp).1, (hall p hp).2.1,
          List.mem_cons_of_mem c (hall p hp).2.2⟩⟩
      next hseen =>
        obtain ⟨hnd, hall⟩ := ih (seen ++ [c])
        constructor
        · refine List.nodup_cons.mpr ⟨?_, hnd⟩
          intro hc
          exact (hall c hc).1 (List.mem_append_right _ (List.mem_singleton.mpr rfl))
        · intro p hp
          rcases List.mem_cons.mp hp with rfl | hp
          · exact ⟨hseen, hfile, List.mem_cons_self _ _⟩
          · refine ⟨fun hmem => (hall p hp).1 (List.mem_append_left _ hmem),
              (hall p hp).2.1, List.mem_cons_of_mem c (hall p hp).2.2⟩
    next hfile =>
      obtain ⟨hnd, hall⟩ := ih seen
      exact ⟨hnd, fun p hp => ⟨(hall p hp).1, (hall p hp).2.1,
        List.mem_cons_of_mem c (hall p hp).2.2⟩⟩

/-- Completeness of the common-config loop: a listed path that exists as a
regular file and was not seen before is returned — with no condition on its
size. -/
theorem configScanAux_complete (t : FSTree) (cs : List FPath) (seen : List FPath)
    (p : FPath) (hin : p ∈ cs) (hf : isFileAt t p = true) (hns : p ∉ seen) :
    p ∈ (configScanAux t cs seen).1 := by
  induction cs generalizing seen with
  | nil => cases hin
  | cons c cs ih =>
    rw [configScanAux]
    rcases List.mem_cons.mp hin with rfl | htail
    · rw [if_pos hf, if_neg hns]
      exact List.mem_cons_self _ _
    · split
      next hfile =>
        split
        next hseen => exact ih seen htail hns
        next hseen =>
          by_cases hpc : p = c
          · subst hpc
            exact List.mem_cons_self _ _
          · refine List.mem_cons_of_mem c (ih (seen ++ [c]) htail ?_)
            intro hmem
            rcases List.mem_append.mp hmem with hmem | hmem
            · exact hns hmem
            · exact hpc (List.mem_singleton.mp hmem)
      next hfile => exact ih seen htail hns

/-- The candidate list returned by the scan is duplicate-free, for every
state of the ignore file and every tree. -/
theorem scan_cands_nodup (g : GitignoreFile) (t : FSTree) :
    (find_git_ignored_files g t).cands.Nodup := by
  cases g with
  | absent => exact List.nodup_nil
  | unreadable => exact List.nodup_nil
  | content lines =>
    obtain ⟨dc, dw, dse, dsk, hc, _, _, _, hnd, _, _, _⟩ :=
      walkTree_step (parse_gitignore lines) [] initScan t
    show (walkTree (parse_gitignore lines) [] initScan t).cands.Nodup
    rw [hc]
    simpa [initScan] using hnd

/-- Every candidate returned by the scan satisfies `CandWitness` for the
parsed patterns, rooted at the repository root. -/
theorem scan_cand_witness (lines : List Str) (t : FSTree) :
    ∀ p ∈ (find_git_ignored_files (.content lines) t).cands,
      CandWitness (parse_gitignore lines) [] t p := by
  obtain ⟨dc, dw, dse, dsk, hc, _, _, _, _, _, hpc, _⟩ :=
    walkTree_step (parse_gitignore lines) [] initScan t
  intro p hp
  have hp2 : p ∈ ([] : List FPath) ++ dc := by
    rw [show ([] : List FPath) ++ dc = initScan.cands ++ dc from rfl, ← hc]
    exact hp
  exact hpc p (by simpa using hp2)

/-- Every large-file warning recorded by the scan satisfies `WarnWitness`. -/
theorem scan_warn_witness (lines : List Str) (t : FSTree) :
    ∀ w ∈ (find_git_ignored_files (.content lines) t).warns,
      WarnWitness (parse_gitignore lines) [] t w := by
  obtain ⟨dc, dw, dse, dsk, _, hw, _, _, _, _, _, hpw⟩ :=
    walkTree_step (parse_gitignore lines) [] initScan t
  intro w hww
  have hw2 : w ∈ ([] : List (FPath × Nat)) ++ dw := by
    rw [show ([] : List (FPath × Nat)) ++ dw = initScan.warns ++ dw from rfl, ← hw]
    exact hww
  exact hpw w (by simpa using hw2)

/-- Appending the common-config files to a duplicate-free candidate list,
with the candidates as the seen set, stays duplicate-free. -/
theorem cands_append_configs_nodup (st : ScanState) (t : FSTree) (h : st.cands.Nodup) :
    (st.cands ++ (find_common_config_files t st.cands).1).Nodup := by
  obtain ⟨hnd, hall⟩ := configScanAux_spec t COMMON_CONFIGS st.cands
  refine h.append hnd ?_
  intro p hp1 hp2
  exact (hall p hp2).1 hp1

/-- The scan state selected by `main` at step 7 has duplicate-free
candidates. -/
theorem scanState_sel_nodup (e : Env) :
    (if e.gitignore.existsOnDisk then find_git_ignored_files e.gitignore e.tree
      else initScan).cands.Nodup := by
  split
  · exact scan_cands_nodup _ _
  · exact List.nodup_nil

/-- The accumulating pattern loop is `filterMap` over the lines. -/
theorem parse_gitignore_eq_filterMap (lines : List Str) :
    parse_gitignore lines = lines.filterMap processLine := by
  have key : ∀ (ls : List Str) (acc : List Str),
      ls.foldl (fun a l => match processLine l with | some p => a ++ [p] | none => a) acc =
        acc ++ ls.filterMap processLine := by
    intro ls
    induction ls with
    | nil => simp
    | cons l ls ih =>
      intro acc
      cases h : processLine l with
      | none => simp [List.foldl_cons, h, ih]
      | some p => simp [List.foldl_cons, h, ih]
  simpa using key lines []

/-- A line the loop keeps contains no separator and no double wildcard. -/
theorem processLine_some (line p : Str) (h : processLine line = some p) :
    hasChar '/' p = false ∧ hasChar '\\' p = false ∧ hasDoubleStar p = false := by
  unfold processLine at h
  dsimp only at h
  split at h
  next => exact absurd h (by simp)
  next =>
    split at h
    next => exact absurd h (by simp)
    next hcond =>
      obtain rfl := Option.some.inj h
      simp only [Bool.or_eq_true, not_or, Bool.not_eq_true] at hcond
      exact ⟨hcond.1.1, hcond.1.2, hcond.2⟩

/-- The code's per-line processing coincides with the amended description
(all trailing forward slashes stripped). -/
theorem processLine_eq_amended : processLine = processLineAmended := rfl

/-- C3, counterexample: the claim describes the parser as stripping ONE
trailing path separator and then rejecting lines that still contain a
separator.  On the line `build//` the code (`rstrip("/")`, which strips ALL
trailing slashes) keeps the pattern `build`, while the claim's one-separator
procedure rejects the line; the two pattern sets differ. -/
theorem C3_counterexample :
    "build".data ∈ parse_gitignore ["build//".data] ∧
    "build".data ∉ parse_gitignore_spec ["build//".data] ∧
    parse_gitignore ["build//".data] ≠ parse_gitignore_spec ["build//".data] := by
  decide

/-- C3, amended: parsing the ignore file yields exactly the patterns obtained
by, per physical line: trimming; skipping empty, `#`-prefixed and
`!`-prefixed lines; stripping ALL trailing forward slashes (backslashes are
not stripped); then skipping any line that still contains a path separator or
a double-wildcard token.  Consequently no kept pattern contains `/`, `\` or
`**`. -/
theorem C3_parse_patterns : ∀ lines : List Str,
    parse_gitignore lines = parse_gitignore_amended lines ∧
    (parse_gitignore lines).all
      (fun p => !(hasChar '/' p || hasChar '\\' p || hasDoubleStar p)) = true := by
  intro lines
  constructor
  · rw [parse_gitignore_eq_filterMap]
    unfold parse_gitignore_amended
    rw [processLine_eq_amended]
  · rw [List.all_eq_true]
    intro p hp
    rw [parse_gitignore_eq_filterMap] at hp
    obtain ⟨l, _, hsome⟩ := List.mem_filterMap.mp hp
    obtain ⟨h1, h2, h3⟩ := processLine_some l p hsome
    simp [h1, h2, h3]

/-- C8: `cleanup_on_failure` never raises, whatever the state of the disk and
whatever its sub-steps do — the forced `git worktree remove` and the
recursive deletion each swallow their own failure; and on `main`'s error path
the originally reported error (and exit code 1) is unchanged by any cleanup
outcome. -/
theorem C8_cleanup_never_raises :
    (∀ ce : CleanupEnv, exceptRaised (cleanup_on_failure ce) = false) ∧
    (∀ e : Env, e.isRepo = true → e.branchValid = true → e.pathExistsAlready = false →
      e.addOk = false →
      (mainRun e).errMsg = some ErrKind.cmdFailed ∧ (mainRun e).exitCode = 1 ∧
        (mainRun e).cleanupRan = true) := by
  constructor
  · intro ce
    obtain ⟨a, b, c, d, f⟩ := ce
    cases a <;> cases b <;> cases c <;> cases d <;> cases f <;> rfl
  · intro e h1 h2 h3 h4
    refine ⟨?_, ?_, ?_⟩ <;> simp [mainRun, h1, h2, h3, h4]

/-- C8, witness: instantiated at a cleanup environment in which every
sub-step fails, and at a run whose `git worktree add` fails. -/
theorem C8_cleanup_never_raises_witness :
    exceptRaised (cleanup_on_failure ⟨true, true, true, true, true⟩) = false ∧
    (mainRun exEnvC8).errMsg = some ErrKind.cmdFailed ∧ (mainRun exEnvC8).exitCode = 1 ∧
    (mainRun exEnvC8).cleanupRan = true := by
  refine ⟨C8_cleanup_never_raises.1 ⟨true, true, true, true, true⟩, ?_, ?_, ?_⟩
  · exact (C8_cleanup_never_raises.2 exEnvC8 rfl rfl rfl rfl).1
  · exact (C8_cleanup_never_raises.2 exEnvC8 rfl rfl rfl rfl).2.1
  · exact (C8_cleanup_never_raises.2 exEnvC8 rfl rfl rfl rfl).2.2

/-- C4, counterexample: the claim puts both Validating checks (repository
and destination path) before branch validation.  In a run whose branch name
is invalid AND whose destination already exists, the code exits at branch
validation (`check-ref-format` at line 445) without ever reaching the
path-existence check of line 454 — so the path check did not complete before
branch validation. -/
theorem C4_counterexample :
    exEnvC4.pathExistsAlready = true ∧
    (mainRun exEnvC4).errMsg = some ErrKind.invalidBranch ∧
    (mainRun exEnvC4).events = [Ev.revParseGitDir, Ev.checkRefFormat] ∧
    Ev.pathCheck ∉ (mainRun exEnvC4).events := by
  decide

/-- C4, amended: the repository check comes first and branch-name validation
PRECEDES the destination-path check; when the destination already exists (and
the branch name is valid) the run exits with code 1, prints the alternate
path suggestion, and never issues a worktree-creation command. -/
theorem C4_validation_order : ∀ e : Env, e.isRepo = true → e.branchValid = true →
    e.pathExistsAlready = true →
    (mainRun e).exitCode = 1 ∧ (mainRun e).errMsg = some ErrKind.pathCollision ∧
    (mainRun e).printedAltPathSuggestion = true ∧
    Ev.worktreeAdd ∉ (mainRun e).events ∧
    (mainRun e).events = [Ev.revParseGitDir, Ev.checkRefFormat, Ev.pathCheck] := by
  intro e h1 h2 h3
  refine ⟨?_, ?_, ?_, ?_, ?_⟩ <;> simp [mainRun, h1, h2, h3]

/-- C4, witness: a run with a valid branch and an occupied destination. -/
theorem C4_validation_order_witness :
    (mainRun exEnvC4w).exitCode = 1 ∧ (mainRun exEnvC4w).errMsg = some ErrKind.pathCollision ∧
    (mainRun exEnvC4w).printedAltPathSuggestion = true ∧
    Ev.worktreeAdd ∉ (mainRun exEnvC4w).events ∧
    (mainRun exEnvC4w).events = [Ev.revParseGitDir, Ev.checkRefFormat, Ev.pathCheck] :=
  C4_validation_order exEnvC4w rfl rfl rfl

/-- C9: when the ignore file does not exist, `find_git_ignored_files`
returns empty candidates and an empty skipped set for every tree (so without
depending on the tree at all), and the run schedules exactly the existing
common-config files, reports no skipped directory and no large-file warning,
exits 0, and never enters the scanner. -/
theorem C9_missing_ignore_file :
    (∀ t : FSTree, find_git_ignored_files .absent t = initScan) ∧
    (∀ e : Env, e.gitignore = GitignoreFile.absent → e.isRepo = true →
      e.branchValid = true → e.pathExistsAlready = false → e.addOk = true →
      (mainRun e).filesToCopy = (find_common_config_files e.tree []).1 ∧
      (mainRun e).skippedDirs = [] ∧ (mainRun e).largeFileWarns = [] ∧
      (mainRun e).exitCode = 0 ∧ Ev.scanEv ∉ (mainRun e).events) := by
  constructor
  · intro t
    rfl
  · intro e hg h1 h2 h3 h4
    have hex : e.gitignore.existsOnDisk = false := by rw [hg]; rfl
    refine ⟨?_, ?_, ?_, ?_, ?_⟩ <;>
      cases hbl : e.branchLocal <;>
        simp [mainRun, h1, h2, h3, h4, hex, hbl, initScan, find_common_config_files]

/-- C9, witness: a repository with no ignore file and one common-config file
(`config/local.yaml`). -/
theorem C9_missing_ignore_file_witness :
    find_git_ignored_files .absent exEnvC9.tree = initScan ∧
    (mainRun exEnvC9).filesToCopy = (find_common_config_files exEnvC9.tree []).1 ∧
    (mainRun exEnvC9).skippedDirs = [] ∧ (mainRun exEnvC9).exitCode = 0 ∧
    Ev.scanEv ∉ (mainRun exEnvC9).events := by
  refine ⟨C9_missing_ignore_file.1 exEnvC9.tree, ?_, ?_, ?_, ?_⟩
  · exact (C9_missing_ignore_file.2 exEnvC9 rfl rfl rfl rfl rfl).1
  · exact (C9_missing_ignore_file.2 exEnvC9 rfl rfl rfl rfl rfl).2.1
  · exact (C9_missing_ignore_file.2 exEnvC9 rfl rfl rfl rfl rfl).2.2.2.1
  · exact (C9_missing_ignore_file.2 exEnvC9 rfl rfl rfl rfl rfl).2.2.2.2

/-- C2, counterexample: the claim says a scanner error (other than a
per-file copy failure) degrades to a warning and the created worktree is
left in place.  In a run where the worktree was created and an exception
escapes the scanner, the `except Exception` handler (worktree.py lines
577-580) invokes the Cleanup Coordinator, which removes the worktree: the
run ends with the worktree gone and exit code 1. -/
theorem C2_counterexample :
    (mainRun exEnvC2).worktreeCreatedOk = true ∧ (mainRun exEnvC2).cleanupRan = true ∧
    (mainRun exEnvC2).worktreeExistsAtEnd = false ∧ (mainRun exEnvC2).exitCode = 1 := by
  decide

/-- C2, amended: only the sync failures the code handles internally degrade
without reverting the worktree — an unreadable ignore file degrades to a
warning and an empty scan, and the run still reports and exits 0 with the
worktree in place; but an exception that escapes the scanner after the
worktree was created is caught by the outer handler, which runs the Cleanup
Coordinator (removing the worktree when its sub-steps succeed) and exits 1. -/
theorem C2_sync_error_handling : ∀ e : Env,
    (e.isRepo = true → e.branchValid = true → e.pathExistsAlready = false → e.addOk = true →
      e.gitignore.existsOnDisk = true → e.scanRaises = true →
      (mainRun e).worktreeCreatedOk = true ∧ (mainRun e).cleanupRan = true ∧
      (mainRun e).exitCode = 1 ∧ (mainRun e).errMsg = some ErrKind.unexpected ∧
      (e.cuGitRemoveRaises = false → e.cuExistsAfterGit = false →
        (mainRun e).worktreeExistsAtEnd = false)) ∧
    (e.isRepo = true → e.branchValid = true → e.pathExistsAlready = false → e.addOk = true →
      e.gitignore = GitignoreFile.unreadable → e.scanRaises = false →
      (mainRun e).exitCode = 0 ∧ (mainRun e).cleanupRan = false ∧
      (mainRun e).worktreeExistsAtEnd = true ∧ Ev.reportEv ∈ (mainRun e).events ∧
      (mainRun e).filesToCopy = (find_common_config_files e.tree []).1) := by
  intro e
  constructor
  · intro h1 h2 h3 h4 h5 h6
    refine ⟨?_, ?_, ?_, ?_, ?_⟩
    · simp [mainRun, h1, h2, h3, h4, h5, h6]
    · simp [mainRun, h1, h2, h3, h4, h5, h6]
    · simp [mainRun, h1, h2, h3, h4, h5, h6]
    · simp [mainRun, h1, h2, h3, h4, h5, h6]
    · intro hg hx
      simp [mainRun, h1, h2, h3, h4, h5, h6, cleanup_on_failure, hg, hx, exceptGetD,
        pyTryPass]
  · intro h1 h2 h3 h4 h5 h6
    have hex : e.gitignore.existsOnDisk = true := by rw [h5]; rfl
    have hscan : find_git_ignored_files e.gitignore e.tree = initScan := by rw [h5]; rfl
    refine ⟨?_, ?_, ?_, ?_, ?_⟩ <;>
      simp [mainRun, h1, h2, h3, h4, h6, hex, hscan, initScan, find_common_config_files]

/-- C2, witness: the two handled runs — a scanner exception after creation
(cleanup runs and the worktree is removed), and an unreadable ignore file
(run succeeds with the worktree kept). -/
theorem C2_sync_error_handling_witness :
    ((mainRun exEnvC2).cleanupRan = true ∧ (mainRun exEnvC2).worktreeExistsAtEnd = false) ∧
    ((mainRun exEnvC2b).exitCode = 0 ∧ (mainRun exEnvC2b).cleanupRan = false) := by
  constructor
  · have h := (C2_sync_error_handling exEnvC2).1 rfl rfl rfl rfl rfl rfl
    exact ⟨h.2.1, h.2.2.2.2 rfl rfl⟩
  · have h := (C2_sync_error_handling exEnvC2b).2 rfl rfl rfl rfl rfl rfl
    exact ⟨h.1, h.2.1⟩

/-- C7: an individual copy failure never escalates — `copy_file_with_metadata`
returns `False` for that file, the file is simply missing from the copied
list while every other candidate whose copy succeeds is still copied, and
the run reaches Reporting, leaves the worktree, runs no cleanup and exits
with success. -/
theorem C7_copy_failure_nonfatal : ∀ (e : Env) (p : FPath),
    e.isRepo = true → e.branchValid = true → e.pathExistsAlready = false →
    e.addOk = true → (e.gitignore.existsOnDisk && e.scanRaises) = false →
    (mainRun e).exitCode = 0 ∧ Ev.reportEv ∈ (mainRun e).events ∧
    (mainRun e).cleanupRan = false ∧ (mainRun e).worktreeExistsAtEnd = true ∧
    (p ∈ (mainRun e).filesToCopy → e.copyRaises p = true →
      copy_file_with_metadata (e.copyRaises p) = false ∧ p ∉ (mainRun e).copied) ∧
    (p ∈ (mainRun e).filesToCopy → e.copyRaises p = false → p ∈ (mainRun e).copied) := by
  intro e p h1 h2 h3 h4 h5
  have hcopied : (mainRun e).copied =
      (mainRun e).filesToCopy.filter (fun q => copy_file_with_metadata (e.copyRaises q)) := by
    simp [mainRun, h1, h2, h3, h4, h5]
  refine ⟨?_, ?_, ?_, ?_, ?_, ?_⟩
  · simp [mainRun, h1, h2, h3, h4, h5]
  · simp [mainRun, h1, h2, h3, h4, h5]
  · simp [mainRun, h1, h2, h3, h4, h5]
  · simp [mainRun, h1, h2, h3, h4, h5]
  · intro hmem hr
    refine ⟨by simp [copy_file_with_metadata, hr], ?_⟩
    rw [hcopied]
    intro hc
    have hfail := (List.mem_filter.mp hc).2
    rw [copy_file_with_metadata, hr] at hfail
    simp at hfail
  · intro hmem hr
    rw [hcopied]
    exact List.mem_filter.mpr ⟨hmem, by simp [copy_file_with_metadata, hr]⟩

/-- C7, witness: copying `.env` fails, copying `.env.local` succeeds; the
run exits 0 and copies exactly the second file. -/
theorem C7_copy_failure_nonfatal_witness :
    (mainRun exEnvC7).exitCode = 0 ∧ Ev.reportEv ∈ (mainRun exEnvC7).events ∧
    copy_file_with_metadata (exEnvC7.copyRaises [".env".data]) = false ∧
    [".env".data] ∉ (mainRun exEnvC7).copied ∧
    [".env.local".data] ∈ (mainRun exEnvC7).copied := by
  have h := C7_copy_failure_nonfatal exEnvC7 [".env".data] rfl rfl rfl rfl rfl
  have h2 := C7_copy_failure_nonfatal exEnvC7 [".env.local".data] rfl rfl rfl rfl rfl
  refine ⟨h.1, h.2.1, ?_, ?_, ?_⟩
  · exact (h.2.2.2.2.1 (by decide) (by decide)).1
  · exact (h.2.2.2.2.1 (by decide) (by decide)).2
  · exact h2.2.2.2.2.2 (by decide) (by decide)

/-- C6: in every run, the final copy set contains each distinct source path
at most once, and so does the list of successfully copied files — a file
reachable both through the pattern matcher and through the common-config
list is scheduled and copied exactly once. -/
theorem C6_no_duplicate_copies : ∀ e : Env,
    (mainRun e).filesToCopy.Nodup ∧ (mainRun e).copied.Nodup := by
  intro e
  cases h1 : e.isRepo with
  | false => simp [mainRun, h1]
  | true =>
    cases h2 : e.branchValid with
    | false => simp [mainRun, h1, h2]
    | true =>
      cases h3 : e.pathExistsAlready with
      | true => simp [mainRun, h1, h2, h3]
      | false =>
        cases h4 : e.addOk with
        | false => simp [mainRun, h1, h2, h3, h4]
        | true =>
          cases h5 : e.gitignore.existsOnDisk && e.scanRaises with
          | true => simp [mainRun, h1, h2, h3, h4, h5]
          | false =>
            have key := cands_append_configs_nodup
              (if e.gitignore.existsOnDisk then find_git_ignored_files e.gitignore e.tree
                else initScan) e.tree (scanState_sel_nodup e)
            constructor
            · simpa [mainRun, h1, h2, h3, h4, h5, find_common_config_files] using key
            · have : ((mainRun e).filesToCopy.filter
                  (fun q => copy_file_with_metadata (e.copyRaises q))).Nodup := by
                refine List.Nodup.filter _ ?_
                simpa [mainRun, h1, h2, h3, h4, h5, find_common_config_files] using key
              simpa [mainRun, h1, h2, h3, h4, h5, find_common_config_files] using this

/-- Splitting off the last element of a list is injective. -/
theorem list_snoc_inj {α : Type} {q r : List α} {a b : α}
    (h : q ++ [a] = r ++ [b]) : q = r ∧ a = b := by
  have h2 := congrArg List.reverse h
  simp only [List.reverse_append, List.reverse_singleton, List.singleton_append,
    List.cons.injEq] at h2
  exact ⟨List.reverse_injective h2.2, h2.1⟩

/-- The walk over children only ever extends the candidate list. -/
theorem walkDirs_cands_sub (pats : List Str) (pre : FPath) (st : ScanState) (ds : Forest) :
    ∀ x ∈ st.cands, x ∈ (walkDirs pats pre st ds).cands := by
  obtain ⟨dc, dw, dse, dsk, hc, _, _, _, _, _, _, _⟩ := walkDirs_step pats pre st ds
  intro x hx
  rw [hc]
  exact List.mem_append_left _ hx

/-- The walk over children only ever extends the warning list. -/
theorem walkDirs_warns_sub (pats : List Str) (pre : FPath) (st : ScanState) (ds : Forest) :
    ∀ x ∈ st.warns, x ∈ (walkDirs pats pre st ds).warns := by
  obtain ⟨dc, dw, dse, dsk, _, hw, _, _, _, _, _, _⟩ := walkDirs_step pats pre st ds
  intro x hx
  rw [hw]
  exact List.mem_append_left _ hx

/-- The walk over children only ever extends the seen set. -/
theorem walkDirs_seen_sub (pats : List Str) (pre : FPath) (st : ScanState) (ds : Forest) :
    ∀ x ∈ st.seen, x ∈ (walkDirs pats pre st ds).seen := by
  obtain ⟨dc, dw, dse, dsk, _, _, hse, _, _, _, _, _⟩ := walkDirs_step pats pre st ds
  intro x hx
  rw [hse]
  exact List.mem_append_left _ hx

/-- The file loop only ever extends the candidate list. -/
theorem filesFold_cands_sub (pats : List Str) (pre : FPath)
    (files : List (Str × Option Nat)) (st : ScanState) :
    ∀ x ∈ st.cands, x ∈ (files.foldl (fun s f => processFile pats pre s f.1 f.2) st).cands := by
  obtain ⟨dc, dw, dse, dsk, hc, _, _, _, _, _, _, _⟩ := filesFold_step pats pre files st
  intro x hx
  rw [hc]
  exact List.mem_append_left _ hx

/-- The file loop only ever extends the warning list. -/
theorem filesFold_warns_sub (pats : List Str) (pre : FPath)
    (files : List (Str × Option Nat)) (st : ScanState) :
    ∀ x ∈ st.warns, x ∈ (files.foldl (fun s f => processFile pats pre s f.1 f.2) st).warns := by
  obtain ⟨dc, dw, dse, dsk, _, hw, _, _, _, _, _, _⟩ := filesFold_step pats pre files st
  intro x hx
  rw [hw]
  exact List.mem_append_left _ hx

/-- The file loop only ever extends the seen set. -/
theorem filesFold_seen_sub (pats : List Str) (pre : FPath)
    (files : List (Str × Option Nat)) (st : ScanState) :
    ∀ x ∈ st.seen, x ∈ (files.foldl (fun s f => processFile pats pre s f.1 f.2) st).seen := by
  obtain ⟨dc, dw, dse, dsk, _, _, hse, _, _, _, _, _⟩ := filesFold_step pats pre files st
  intro x hx
  rw [hse]
  exact List.mem_append_left _ hx

/-- After a matched file is processed, its path is in the seen set (lines
302-304: the seen check happens before the stat, and an unseen path is added
whatever the stat outcome). -/
theorem processFile_seen_mem (pats : List Str) (pre : FPath) (st : ScanState)
    (fname : Str) (stt : Option Nat)
    (hm : pats.any (fun pat => fnmatch fname pat) = true) :
    pre ++ [fname] ∈ (processFile pats pre st fname stt).seen := by
  by_cases hseen : pre ++ [fname] ∈ st.seen
  · cases stt with
    | none => simp [processFile, hm, hseen]
    | some sz =>
      by_cases hbig : sz > MAX_FILE_SIZE_BYTES
      · simp [processFile, hm, hseen, hbig]
      · simp [processFile, hm, hseen, hbig]
  · cases stt with
    | none => simp [processFile, hm, hseen]
    | some sz =>
      by_cases hbig : sz > MAX_FILE_SIZE_BYTES
      · simp [processFile, hm, hseen, hbig]
      · simp [processFile, hm, hseen, hbig]

/-- Where a path in the seen set after one file's processing comes from:
it was seen before, or it is this file's path and the same processing either
made it a candidate, warned about it, or had a failing stat. -/
theorem processFile_seen_out (pats : List Str) (pre : FPath) (st : ScanState)
    (fname : Str) (stt : Option Nat) (p : FPath)
    (hp : p ∈ (processFile pats pre st fname stt).seen) :
    p ∈ st.seen ∨
    (p = pre ++ [fname] ∧ pats.any (fun pat => fnmatch fname pat) = true ∧
      (p ∈ (processFile pats pre st fname stt).cands ∨
       (∃ sz, (p, sz) ∈ (processFile pats pre st fname stt).warns) ∨ stt = none)) := by
  by_cases hm : pats.any (fun pat => fnmatch fname pat) = true
  case neg =>
    left
    simpa [processFile, hm] using hp
  case pos =>
    by_cases hseen : pre ++ [fname] ∈ st.seen
    · left
      cases stt with
      | none => simpa [processFile, hm, hseen] using hp
      | some sz =>
        by_cases hbig : sz > MAX_FILE_SIZE_BYTES
        · simpa [processFile, hm, hseen, hbig] using hp
        · simpa [processFile, hm, hseen, hbig] using hp
    · cases stt with
      | none =>
        have hp2 : p ∈ st.seen ++ [pre ++ [fname]] := by
          simpa [processFile, hm, hseen] using hp
        rcases List.mem_append.mp hp2 with h | h
        · exact Or.inl h
        · exact Or.inr ⟨List.mem_singleton.mp h, hm, Or.inr (Or.inr rfl)⟩
      | some sz =>
        by_cases hbig : sz > MAX_FILE_SIZE_BYTES
        · have hp2 : p ∈ st.seen ++ [pre ++ [fname]] := by
            simpa [processFile, hm, hseen, hbig] using hp
          rcases List.mem_append.mp hp2 with h | h
          · exact Or.inl h
          · refine Or.inr ⟨List.mem_singleton.mp h, hm, Or.inr (Or.inl ⟨sz, ?_⟩)⟩
            rw [List.mem_singleton.mp h]
            simp [processFile, hm, hseen, hbig]
        · have hp2 : p ∈ st.seen ++ [pre ++ [fname]] := by
            simpa [processFile, hm, hseen, hbig] using hp
          rcases List.mem_append.mp hp2 with h | h
          · exact Or.inl h
          · refine Or.inr ⟨List.mem_singleton.mp h, hm, Or.inl ?_⟩
            rw [List.mem_singleton.mp h]
            simp [processFile, hm, hseen, hbig]

/-- A matched file entry of the directory puts its path into the seen set of
the file loop. -/
theorem filesFold_seen_complete (pats : List Str) (pre : FPath)
    (files : List (Str × Option Nat)) (st : ScanState) (n : Str) (stt : Option Nat)
    (hmem : (n, stt) ∈ files) (hm : pats.any (fun pat => fnmatch n pat) = true) :
    pre ++ [n] ∈ (files.foldl (fun s f => processFile pats pre s f.1 f.2) st).seen := by
  induction files generalizing st with
  | nil => cases hmem
  | cons f fs ih =>
    simp only [List.foldl_cons]
    rcases List.mem_cons.mp hmem with heq | htail
    · cases heq
      exact filesFold_seen_sub pats pre fs _ _ (processFile_seen_mem pats pre st n stt hm)
    · exact ih _ htail

/-- Where a path in the seen set after the file loop comes from: seen
before, a candidate, a warning, or a stat-failing matched entry. -/
theorem filesFold_seen_out (pats : List Str) (pre : FPath)
    (files : List (Str × Option Nat)) (st : ScanState) (p : FPath)
    (hp : p ∈ (files.foldl (fun s f => processFile pats pre s f.1 f.2) st).seen) :
    p ∈ st.seen ∨
    p ∈ (files.foldl (fun s f => processFile pats pre s f.1 f.2) st).cands ∨
    (∃ sz, (p, sz) ∈ (files.foldl (fun s f => processFile pats pre s f.1 f.2) st).warns) ∨
    FileNone pats pre files p := by
  induction files generalizing st with
  | nil => exact Or.inl hp
  | cons f fs ih =>
    simp only [List.foldl_cons] at hp ⊢
    rcases ih (processFile pats pre st f.1 f.2) hp with h | h | h | h
    · rcases processFile_seen_out pats pre st f.1 f.2 p h with h2 | ⟨hpe, hm2, hout⟩
      · exact Or.inl h2
      · rcases hout with hcand | ⟨sz, hwarn⟩ | hnone
        · exact Or.inr (Or.inl (filesFold_cands_sub pats pre fs _ p hcand))
        · exact Or.inr (Or.inr (Or.inl ⟨sz, filesFold_warns_sub pats pre fs _ _ hwarn⟩))
        · refine Or.inr (Or.inr (Or.inr ⟨f.1, ?_, hpe, hm2⟩))
          have hf : (f.1, (none : Option Nat)) = f := by rw [← hnone]
          rw [hf]
          exact List.mem_cons_self f fs
    · exact Or.inr (Or.inl h)
    · exact Or.inr (Or.inr (Or.inl h))
    · obtain ⟨n, hmem, hpe, hm2⟩ := h
      exact Or.inr (Or.inr (Or.inr ⟨n, List.mem_cons_of_mem f hmem, hpe, hm2⟩))

/-- A stat-failing matched entry of the visited node is a `NoneStat` witness
for that node. -/
theorem noneStat_of_file (pats : List Str) (pre : FPath)
    (files : List (Str × Option Nat)) (dirs : Forest) :
    ∀ p, FileNone pats pre files p → NoneStat pats pre (.node files dirs) p := by
  rintro p ⟨n, hmem, rfl, hm⟩
  exact ⟨[], n, by simp, by simp, mem_fileStats_of_mem files dirs n none hmem, hm⟩

/-- `NoneStatF` of the children gives `NoneStat` of the parent node. -/
theorem noneStat_of_forest (pats : List Str) (pre : FPath)
    (files : List (Str × Option Nat)) (dirs : Forest) :
    ∀ p, NoneStatF pats pre dirs p → NoneStat pats pre (.node files dirs) p := by
  rintro p ⟨name, sub, hmem, hbl, q, n, rfl, hq, hstats, hm⟩
  refine ⟨name :: q, n, by simp, ?_, ?_, hm⟩
  · intro c hc
    rcases List.mem_cons.mp hc with rfl | hc
    · exact hbl
    · exact hq c hc
  · simp only [List.cons_append]
    rw [fileStatsTree_cons files dirs name (q ++ [n]) (by simp)]
    exact mem_statsForest_of_mem dirs name sub (q ++ [n]) none hmem hstats

/-- `NoneStat` for the head child of a forest. -/
theorem noneStatF_head (pats : List Str) (pre : FPath) (name : Str) (t : FSTree)
    (rest : Forest) (hbl : is_blacklisted name = false) :
    ∀ p, NoneStat pats (pre ++ [name]) t p → NoneStatF pats pre (.cons name t rest) p :=
  fun _ h => ⟨name, t, List.mem_cons_self _ _, hbl, h⟩

/-- `NoneStatF` is preserved by extending the forest on the left. -/
theorem noneStatF_tail (pats : List Str) (pre : FPath) (name : Str) (t : FSTree)
    (rest : Forest) :
    ∀ p, NoneStatF pats pre rest p → NoneStatF pats pre (.cons name t rest) p := by
  rintro p ⟨nm, sub, hmem, hbl, h⟩
  exact ⟨nm, sub, List.mem_cons_of_mem _ hmem, hbl, h⟩

mutual
/-- Completeness of the seen set: every pattern-matched file entry of a
directory reached through non-blacklisted ancestors ends up in `seen_files`
(it is checked against the seen set and added if absent — lines 302-304 —
before the stat outcome can drop it). -/
theorem walkTree_seen_complete (pats : List Str) (pre : FPath) (st : ScanState)
    (t : FSTree) (q : FPath) (u : FSTree) (n : Str) (stt : Option Nat)
    (hu : u ∈ subtreesAt t q) (hq : ∀ c ∈ q, is_blacklisted c = false)
    (hmem : (n, stt) ∈ u.filesOf)
    (hm : pats.any (fun pat => fnmatch n pat) = true) :
    pre ++ q ++ [n] ∈ (walkTree pats pre st t).seen := by
  cases t with
  | node files dirs =>
    rw [walkTree]
    cases q with
    | nil =>
      have hut : u = FSTree.node files dirs := by
        have h2 : u ∈ [FSTree.node files dirs] := hu
        simpa using h2
      subst hut
      have h1 := filesFold_seen_complete pats pre files st n stt hmem hm
      simpa using walkDirs_seen_sub pats pre _ dirs _ h1
    | cons c q' =>
      have hu' : u ∈ subtreesForest dirs c q' := hu
      have h := walkDirs_seen_complete pats pre
        (files.foldl (fun s f => processFile pats pre s f.1 f.2) st) dirs c q' u n stt hu'
        (hq c (List.mem_cons_self c q')) (fun x hx => hq x (List.mem_cons_of_mem c hx))
        hmem hm
      simpa using h
/-- `walkTree_seen_complete` over the children of a node. -/
theorem walkDirs_seen_complete (pats : List Str) (pre : FPath) (st : ScanState)
    (ds : Forest) (c : Str) (q' : FPath) (u : FSTree) (n : Str) (stt : Option Nat)
    (hu : u ∈ subtreesForest ds c q') (hc : is_blacklisted c = false)
    (hq : ∀ x ∈ q', is_blacklisted x = false) (hmem : (n, stt) ∈ u.filesOf)
    (hm : pats.any (fun pat => fnmatch n pat) = true) :
    pre ++ (c :: q') ++ [n] ∈ (walkDirs pats pre st ds).seen := by
  cases ds with
  | nil => cases hu
  | cons nm t rest =>
    rw [walkDirs]
    have hu2 : u ∈ (if nm = c then subtreesAt t q' else []) ++ subtreesForest rest c q' := hu
    rcases List.mem_append.mp hu2 with hhead | htail
    · by_cases hnc : nm = c
      · rw [if_pos hnc] at hhead
        subst hnc
        rw [if_neg (by rw [hc]; exact Bool.false_ne_true)]
        refine walkDirs_seen_sub pats pre _ rest _ ?_
        have h := walkTree_seen_complete pats (pre ++ [nm]) st t q' u n stt hhead hq hmem hm
        simpa using h
      · rw [if_neg hnc] at hhead
        cases hhead
    · split
      · exact walkDirs_seen_complete pats pre _ rest c q' u n stt htail hc hq hmem hm
      · exact walkDirs_seen_complete pats pre _ rest c q' u n stt htail hc hq hmem hm
end

mutual
/-- Where every path in the walk's seen set comes from: seen before the
walk, or processed by the walk — as a candidate, as a large-file warning, or
silently dropped because its stat failed. -/
theorem walkTree_seen_out (pats : List Str) (pre : FPath) (st : ScanState) (t : FSTree)
    (p : FPath) (hp : p ∈ (walkTree pats pre st t).seen) :
    p ∈ st.seen ∨ p ∈ (walkTree pats pre st t).cands ∨
    (∃ sz, (p, sz) ∈ (walkTree pats pre st t).warns) ∨ NoneStat pats pre t p := by
  cases t with
  | node files dirs =>
    rw [walkTree] at hp ⊢
    rcases walkDirs_seen_out pats pre
        (files.foldl (fun s f => processFile pats pre s f.1 f.2) st) dirs p hp
      with h | h | h | h
    · rcases filesFold_seen_out pats pre files st p h with h2 | h2 | ⟨sz, h2⟩ | h2
      · exact Or.inl h2
      · exact Or.inr (Or.inl (walkDirs_cands_sub pats pre _ dirs p h2))
      · exact Or.inr (Or.inr (Or.inl ⟨sz, walkDirs_warns_sub pats pre _ dirs _ h2⟩))
      · exact Or.inr (Or.inr (Or.inr (noneStat_of_file pats pre files dirs p h2)))
    · exact Or.inr (Or.inl h)
    · exact Or.inr (Or.inr (Or.inl h))
    · exact Or.inr (Or.inr (Or.inr (noneStat_of_forest pats pre files dirs p h)))
/-- `walkTree_seen_out` over the children of a node. -/
theorem walkDirs_seen_out (pats : List Str) (pre : FPath) (st : ScanState) (ds : Forest)
    (p : FPath) (hp : p ∈ (walkDirs pats pre st ds).seen) :
    p ∈ st.seen ∨ p ∈ (walkDirs pats pre st ds).cands ∨
    (∃ sz, (p, sz) ∈ (walkDirs pats pre st ds).warns) ∨ NoneStatF pats pre ds p := by
  cases ds with
  | nil =>
    rw [walkDirs] at hp
    exact Or.inl hp
  | cons name t rest =>
    rw [walkDirs] at hp ⊢
    by_cases hbl : is_blacklisted name = true
    · rw [if_pos hbl] at hp ⊢
      rcases walkDirs_seen_out pats pre
          { st with skipped := st.skipped ++ [name] } rest p hp with h | h | h | h
      · exact Or.inl h
      · exact Or.inr (Or.inl h)
      · exact Or.inr (Or.inr (Or.inl h))
      · exact Or.inr (Or.inr (Or.inr (noneStatF_tail pats pre name t rest p h)))
    · rw [if_neg hbl] at hp ⊢
      rcases walkDirs_seen_out pats pre
          (walkTree pats (pre ++ [name]) st t) rest p hp with h | h | h | h
      · rcases walkTree_seen_out pats (pre ++ [name]) st t p h with h2 | h2 | ⟨sz, h3⟩ | h2
        · exact Or.inl h2
        · exact Or.inr (Or.inl (walkDirs_cands_sub pats pre _ rest p h2))
        · exact Or.inr (Or.inr (Or.inl ⟨sz, walkDirs_warns_sub pats pre _ rest _ h3⟩))
        · exact Or.inr (Or.inr (Or.inr
            (noneStatF_head pats pre name t rest (by simpa using hbl) p h2)))
      · exact Or.inr (Or.inl h)
      · exact Or.inr (Or.inr (Or.inl h))
      · exact Or.inr (Or.inr (Or.inr (noneStatF_tail pats pre name t rest p h)))
end

/-- C1, counterexample: an oversized `.env` (one byte above the ceiling)
matching the ignore pattern `.env` is recorded as skipped by the scan, yet
the run still copies it: `find_common_config_files` applies no size check,
and `main` rebuilds `seen_files` only from the files the scan RETURNED, so
the skipped file is not in it.  The oversized file ends up both in the
large-file warnings and in the copied list. -/
theorem C1_counterexample :
    fileStatsTree exEnvC1.tree [".env".data] = [some (MAX_FILE_SIZE_BYTES + 1)] ∧
    MAX_FILE_SIZE_BYTES < MAX_FILE_SIZE_BYTES + 1 ∧
    (mainRun exEnvC1).largeFileWarns = [([".env".data], MAX_FILE_SIZE_BYTES + 1)] ∧
    [".env".data] ∈ (mainRun exEnvC1).filesToCopy ∧
    (mainRun exEnvC1).copied = [[".env".data]] := by
  decide

/-- C1, amended: the size ceiling is enforced by the SCAN, in both
directions — every recorded large-file warning exceeds the ceiling; every
scan candidate is a file whose `stat` succeeded with size within the
ceiling; and every oversized file the scan reaches through the matcher (a
pattern-matched file entry behind non-blacklisted ancestors whose stat
outcomes at that path are all oversized — on a real filesystem, where a
path carries one entry, this is exactly "the file at that path is
oversized"; the model's trees may hold several entries at one path) is
excluded from the candidates AND recorded in the large-file warning log —
but the explicit common-config pass checks only existence,
regular-file-ness and the seen set, never size: any listed config path that
exists as a regular file and is unseen is scheduled for copying regardless
of its size. -/
theorem C1_size_ceiling :
    (∀ lines t, ∀ w ∈ (find_git_ignored_files (.content lines) t).warns,
      MAX_FILE_SIZE_BYTES < w.2) ∧
    (∀ lines t p, p ∈ (find_git_ignored_files (.content lines) t).cands →
      ∃ sz, (some sz) ∈ fileStatsTree t p ∧ sz ≤ MAX_FILE_SIZE_BYTES) ∧
    (∀ lines t q u n sz, u ∈ subtreesAt t q → (∀ c ∈ q, is_blacklisted c = false) →
      (n, some sz) ∈ u.filesOf → MAX_FILE_SIZE_BYTES < sz →
      (parse_gitignore lines).any (fun pat => fnmatch n pat) = true →
      (∀ s ∈ fileStatsTree t (q ++ [n]),
        ∃ sz', s = some sz' ∧ MAX_FILE_SIZE_BYTES < sz') →
      (q ++ [n]) ∉ (find_git_ignored_files (.content lines) t).cands ∧
      ∃ sz', ((q ++ [n]), sz') ∈ (find_git_ignored_files (.content lines) t).warns ∧
        MAX_FILE_SIZE_BYTES < sz') ∧
    (∀ t seen p, p ∈ (find_common_config_files t seen).1 →
      p ∈ COMMON_CONFIGS ∧ isFileAt t p = true ∧ p ∉ seen) ∧
    (∀ t seen p, p ∈ COMMON_CONFIGS → isFileAt t p = true → p ∉ seen →
      p ∈ (find_common_config_files t seen).1) := by
  refine ⟨?_, ?_, ?_, ?_, ?_⟩
  · intro lines t w hw
    obtain ⟨q, n, _, _, _, hlt, _⟩ := scan_warn_witness lines t w hw
    exact hlt
  · intro lines t p hp
    obtain ⟨q, n, sz, hpe, _, hstats, hle, _⟩ := scan_cand_witness lines t p hp
    refine ⟨sz, ?_, hle⟩
    rw [hpe]
    simpa using hstats
  · intro lines t q u n sz hu hq hmem _hbig hm hall
    have hseen : q ++ [n] ∈ (walkTree (parse_gitignore lines) [] initScan t).seen := by
      have h := walkTree_seen_complete (parse_gitignore lines) [] initScan t q u n
        (some sz) hu hq hmem hm
      simpa using h
    have hnotc : (q ++ [n]) ∉ (find_git_ignored_files (.content lines) t).cands := by
      intro hc
      obtain ⟨q2, n2, sz2, hpe, _, hstats, hle, _⟩ := scan_cand_witness lines t _ hc
      obtain ⟨rfl, rfl⟩ := list_snoc_inj (show q ++ [n] = q2 ++ [n2] by simpa using hpe)
      obtain ⟨sz3, heq, hlt⟩ := hall _ hstats
      obtain rfl := Option.some.inj heq
      omega
    refine ⟨hnotc, ?_⟩
    rcases walkTree_seen_out (parse_gitignore lines) [] initScan t (q ++ [n]) hseen
      with h0 | hc | ⟨szw, hw⟩ | hn
    · cases h0
    · exact absurd hc hnotc
    · refine ⟨szw, hw, ?_⟩
      obtain ⟨q2, n2, _, _, _, hlt, _⟩ := scan_warn_witness lines t (q ++ [n], szw) hw
      exact hlt
    · obtain ⟨q2, n2, hpe, _, hstats, _⟩ := hn
      obtain ⟨rfl, rfl⟩ := list_snoc_inj (show q ++ [n] = q2 ++ [n2] by simpa using hpe)
      obtain ⟨sz3, heq, _⟩ := hall _ hstats
      cases heq
  · intro t seen p hp
    obtain ⟨_, hall⟩ := configScanAux_spec t COMMON_CONFIGS seen
    exact ⟨(hall p hp).2.2, (hall p hp).2.1, (hall p hp).1⟩
  · intro t seen p hin hf hns
    exact configScanAux_complete t COMMON_CONFIGS seen p hin hf hns

/-- C1, witness: the oversized `.env` is warned about (size above ceiling);
a small `sub/.env.local` candidate has a within-ceiling stat; the reached
oversized `.env` is excluded from the candidates and recorded in the
warning log; and the common-config pass schedules `.env` with no size
condition. -/
theorem C1_size_ceiling_witness :
    MAX_FILE_SIZE_BYTES < MAX_FILE_SIZE_BYTES + 1 ∧
    (∃ sz, (some sz) ∈ fileStatsTree exTreeC1b ["sub".data, ".env.local".data] ∧
      sz ≤ MAX_FILE_SIZE_BYTES) ∧
    ([".env".data] ∉ (find_git_ignored_files (.content [".env".data]) exTreeC1).cands ∧
      ∃ sz', ([".env".data], sz') ∈
          (find_git_ignored_files (.content [".env".data]) exTreeC1).warns ∧
        MAX_FILE_SIZE_BYTES < sz') ∧
    ([".env".data] ∈ COMMON_CONFIGS ∧ isFileAt exTreeC1 [".env".data] = true ∧
      [".env".data] ∉ ([] : List FPath)) ∧
    [".env".data] ∈ (find_common_config_files exTreeC1 []).1 := by
  refine ⟨?_, ?_, ?_, ?_, ?_⟩
  · exact C1_size_ceiling.1 [".env".data] exEnvC1.tree
      ([".env".data], MAX_FILE_SIZE_BYTES + 1) (by decide)
  · exact C1_size_ceiling.2.1 [".env.local".data] exTreeC1b
      ["sub".data, ".env.local".data] (by decide)
  · exact C1_size_ceiling.2.2.1 [".env".data] exTreeC1 [] exTreeC1 ".env".data
      (MAX_FILE_SIZE_BYTES + 1) (by decide) (by decide) (by decide) (by decide)
      (by decide)
      (by
        intro s hs
        rw [show fileStatsTree exTreeC1 ([] ++ [".env".data]) =
          [some (MAX_FILE_SIZE_BYTES + 1)] from by decide] at hs
        obtain rfl := List.mem_singleton.mp hs
        exact ⟨MAX_FILE_SIZE_BYTES + 1, rfl, by decide⟩)
  · exact C1_size_ceiling.2.2.2.1 exTreeC1 [] [".env".data] (by decide)
  · exact C1_size_ceiling.2.2.2.2 exTreeC1 [] [".env".data] (by decide) (by decide)
      (by simp)

/-- C5, counterexample: the claim records EVERY blacklisted directory in
`skippedDirs`.  The blacklisted `.venv` nested inside the blacklisted
`node_modules` is never reached (its parent is pruned first), so it is
absent from the skipped set, which holds only `node_modules`. -/
theorem C5_counterexample :
    is_blacklisted ".venv".data = true ∧
    (".venv".data, exTreeC5inner) ∈ forestList exTreeC5nm.dirsOf ∧
    exTreeC5nm ∈ subtreesAt exTreeC5 ["node_modules".data] ∧
    (find_git_ignored_files (.content []) exTreeC5).skipped = ["node_modules".data] ∧
    ".venv".data ∉ (find_git_ignored_files (.content []) exTreeC5).skipped := by
  decide

/-- C5, amended: no file beneath a blacklisted directory at any depth is a
candidate (every directory component of a candidate's path is
non-blacklisted), and every blacklisted directory whose parent is actually
visited — i.e. reachable through non-blacklisted ancestors only — is
recorded in `skippedDirs`; a blacklisted directory nested below another
blacklisted directory is pruned with its parent and not recorded. -/
theorem C5_blacklist_pruning :
    (∀ lines t p, p ∈ (find_git_ignored_files (.content lines) t).cands →
      ∀ c ∈ p.dropLast, is_blacklisted c = false) ∧
    (∀ lines t q u name sub, u ∈ subtreesAt t q →
      (∀ c ∈ q, is_blacklisted c = false) → (name, sub) ∈ forestList u.dirsOf →
      is_blacklisted name = true →
      name ∈ (find_git_ignored_files (.content lines) t).skipped) := by
  constructor
  · intro lines t p hp
    obtain ⟨q, n, sz, hpe, hq, _, _, _⟩ := scan_cand_witness lines t p hp
    intro c hc
    apply hq
    have hdrop : p.dropLast = q := by
      rw [hpe]
      simp
    rwa [hdrop] at hc
  · intro lines t q u name sub hu hq hmem hbl
    exact walkTree_records (parse_gitignore lines) [] initScan t q u name sub hu hq hmem hbl

/-- C5, witness: scanning a tree with `sub/.env` and a top-level
`node_modules`: the candidate's directory component `sub` is not
blacklisted, and `node_modules` is recorded as skipped. -/
theorem C5_blacklist_pruning_witness :
    (∀ c ∈ (["sub".data, ".env".data] : FPath).dropLast, is_blacklisted c = false) ∧
    "node_modules".data ∈ (find_git_ignored_files (.content [".env".data]) exTreeC5w).skipped := by
  constructor
  · exact C5_blacklist_pruning.1 [".env".data] exTreeC5w ["sub".data, ".env".data] (by decide)
  · exact C5_blacklist_pruning.2 [".env".data] exTreeC5w [] exTreeC5w "node_modules".data
      (.node [] .nil) (by decide) (by intro c hc; cases hc) (by decide) (by decide)

/-- C10: a listed file whose `stat` raises is silently excluded — it appears
neither among the candidates nor among the large-file warnings — and the
scan continues: in a directory holding a stat-failing file and a matching
readable file, the readable file is still the (only) candidate. -/
theorem C10_stat_failure_silent :
    (∀ lines t p, (∀ s ∈ fileStatsTree t p, s = none) →
      p ∉ (find_git_ignored_files (.content lines) t).cands ∧
      ∀ sz, (p, sz) ∉ (find_git_ignored_files (.content lines) t).warns) ∧
    (∀ pats n1 n2 sz, n1 ≠ n2 → pats.any (fun pat => fnmatch n1 pat) = true →
      pats.any (fun pat => fnmatch n2 pat) = true → sz ≤ MAX_FILE_SIZE_BYTES →
      (walkTree pats [] initScan (.node [(n1, none), (n2, some sz)] .nil)).cands = [[n2]]) := by
  constructor
  · intro lines t p hall
    constructor
    · intro hp
      obtain ⟨q, n, sz, hpe, _, hstats, _, _⟩ := scan_cand_witness lines t p hp
      have hmem : (some sz) ∈ fileStatsTree t p := by
        rw [hpe]
        simpa using hstats
      exact Option.noConfusion (hall _ hmem)
    · intro sz hw
      obtain ⟨q, n, hpe, _, hstats, _, _⟩ := scan_warn_witness lines t (p, sz) hw
      have hmem : (some sz) ∈ fileStatsTree t p := by
        rw [show p = [] ++ q ++ [n] from hpe]
        simpa using hstats
      exact Option.noConfusion (hall _ hmem)
  · intro pats n1 n2 sz hne h1 h2 hsz
    have hns : ¬(sz > MAX_FILE_SIZE_BYTES) := Nat.not_lt.mpr hsz
    rw [walkTree, walkDirs]
    simp only [List.foldl_cons, List.foldl_nil]
    simp [processFile, h1, h2, initScan, hns, List.cons_eq_cons, Ne.symm hne]

/-- C10, witness: a `*.key` pattern with `a.key` unreadable by `stat` — it
is neither a candidate nor warned about — and in a directory with
stat-failing `a.key` next to readable `b.key`, the scan still picks up
`b.key`. -/
theorem C10_stat_failure_silent_witness :
    (["a.key".data] ∉ (find_git_ignored_files (.content ["*.key".data]) exTreeC10).cands ∧
      ∀ sz, (["a.key".data], sz) ∉
        (find_git_ignored_files (.content ["*.key".data]) exTreeC10).warns) ∧
    (walkTree ["*.key".data] [] initScan
      (.node [("a.key".data, none), ("b.key".data, some 5)] .nil)).cands = [["b.key".data]] := by
  constructor
  · exact C10_stat_failure_silent.1 ["*.key".data] exTreeC10 ["a.key".data] (by decide)
  · exact C10_stat_failure_silent.2 ["*.key".data] "a.key".data "b.key".data 5
      (by decide) (by decide) (by decide) (by decide)
